import Mathlib

/-!
Verification development for the matchup scheduler in `boardlaw/arena/multi.py`
(`live_indices`, `Tracker`, `Evaluator`).

The embedding mirrors the tensor code over lists and integer grids:

* A slot's matchup binding is a pair of agent ordinals (`Int × Int`); a
  terminated slot is overwritten with `(-1, -1)` exactly as the source writes
  `self.live[masked] = -1`.
* The progress matrix (`games`) is a `List (List Int)`; the `pandas`
  `DataFrame` used at construction is modelled by its index list, column list
  and value rows.
* `stats.wins` / `stats.moves` are grids, modelled as functions from a pair of
  `Int` cell coordinates; the per-seat wins of a cell form an `Int × Int`.
* Wall-clock times (`stats.times`, `start`/`end`) are external measurements
  and are not modelled; no claim depends on them.
* The external simulation step is an input: each tick consumes a seats vector
  and, per dispatched slot, a terminal flag with a per-seat reward pair.
-/

namespace Boardlaw

abbrev Pair := Int × Int

/-- The tombstone value written over a terminated slot (`self.live[masked] = -1`). -/
def TOMB : Pair := (-1, -1)

/-! ### live_indices

`live_indices(residual)` materialises `residual[i, j]` copies of `(i, j)` for
every entry, in row-major order of the nonzero entries.  Entries that are zero
or negative produce no copies (`mask = arange < counts` keeps no columns for a
nonpositive count), which `Int.toNat` captures. -/

/-- Slots for one row `i` of the residual matrix, starting at column `j`. -/
def rowSlotsFrom (i : Nat) : Nat → List Int → List Pair
  | _, [] => []
  | j, v :: vs => List.replicate v.toNat ((i : Int), (j : Int)) ++ rowSlotsFrom i (j + 1) vs

/-- Slots for the rows of the residual matrix, starting at row `i`. -/
def liveIndicesFrom : Nat → List (List Int) → List Pair
  | _, [] => []
  | i, row :: rows => rowSlotsFrom i 0 row ++ liveIndicesFrom (i + 1) rows

/-- `live_indices(residual)`: `residual[i, j]` copies of `(i, j)` per entry. -/
def live_indices (residual : List (List Int)) : List Pair :=
  liveIndicesFrom 0 residual

/-! ### Matrix helpers for the construction code -/

/-- Sum of all entries of a matrix (`tensor.sum()`). -/
def matSum (m : List (List Int)) : Int :=
  (m.map List.sum).sum

/-- `games[np.diag_indices_from(games)] = n_envs_per`. -/
def setDiag (n : Int) (values : List (List Int)) : List (List Int) :=
  (List.range values.length).zipWith
    (fun i row => (List.range row.length).zipWith (fun j v => if i = j then n else v) row)
    values

/-- `residual = n_envs_per - self.games`, elementwise. -/
def residMat (n : Int) (games : List (List Int)) : List (List Int) :=
  games.map (fun row => row.map (fun g => n - g))

/-- `pd.DataFrame(0, list(agents), list(agents))`: the all-zero progress matrix. -/
def zeroMat (c : Nat) : List (List Int) :=
  List.replicate c (List.replicate c 0)

/-! ### Tracker -/

/-- Construction failures of `Tracker.__init__` / `live_indices`:
the `games.index == games.columns` assertion, the `residual.sum() < 100*1024*1024`
memory-ceiling assertion, and the `residual.max()` reduction that raises on an
empty tensor (zero agent identities). -/
inductive ConfigErr where
  | indexMismatch : ConfigErr
  | capacity : ConfigErr
  | emptyReduce : ConfigErr
deriving DecidableEq

/-- The memory ceiling in the `live_indices` assertion. -/
def CAP : Int := 100 * 1024 * 1024

structure Tracker where
  n_envs_per : Int
  max_dispatch : Nat
  names : List Int
  games : List (List Int)
  init_games : Int
  live : List Pair

/-- The tracker state built by `Tracker.__init__` once its assertions pass:
diagonal of the progress matrix forced to `n_envs_per`, `init_games` the sum of
the resulting matrix, slot pool from `live_indices` of the residual. -/
def Tracker.mkState (n : Int) (index : List Int) (values : List (List Int))
    (md : Nat) : Tracker :=
  let games := setDiag n values
  { n_envs_per := n
    max_dispatch := md
    names := index
    games := games
    init_games := matSum games
    live := live_indices (residMat n games) }

/-- `Tracker.__init__`: asserts `(games.index == games.columns).all()`, then the
`live_indices` capacity assertion; `residual.max()` raises on an empty matrix. -/
def Tracker.init (n : Int) (index columns : List Int) (values : List (List Int))
    (md : Nat) : Except ConfigErr Tracker :=
  if index = columns then
    if matSum (residMat n (setDiag n values)) < CAP then
      if index.isEmpty then .error .emptyReduce
      else .ok (Tracker.mkState n index values md)
    else .error .capacity
  else .error .indexMismatch

/-- `self.n_envs = len(self.live)`. -/
def Tracker.n_envs (t : Tracker) : Nat := t.live.length

/-- `Tracker.report`: `(games.sum() - init_games, nelement*n_envs_per - games.sum())`. -/
def Tracker.report (t : Tracker) : Int × Int :=
  (matSum t.games - t.init_games,
   (t.names.length * t.names.length : Int) * t.n_envs_per - matSum t.games)

/-- `Tracker.finished`: `(self.live == -1).all()`. -/
def Tracker.finished (t : Tracker) : Bool :=
  t.live.all (fun p => p == TOMB)

/-- `masked = torch.zeros_like(mask); masked[mask] = terminal`: scatter the
rank-indexed `terminal` flags back over the positions set in `mask`. -/
def scatterMask : List Bool → List Bool → List Bool
  | [], _ => []
  | false :: ms, ts => false :: scatterMask ms ts
  | true :: ms, [] => false :: scatterMask ms []
  | true :: ms, t :: ts => t :: scatterMask ms ts

/-- Boolean-mask selection `xs[mask]` (row-major order of the set positions). -/
def maskSelect {α : Type} (xs : List α) (m : List Bool) : List α :=
  ((xs.zip m).filter (fun q => q.2)).map (fun q => q.1)

/-- `Tracker.update`: reads the bindings at `masked`, then `self.live[masked] = -1`;
returns `(terminated, updated tracker)`. -/
def Tracker.update (t : Tracker) (terminal mask : List Bool) :
    List Pair × Tracker :=
  let masked := scatterMask mask terminal
  (maskSelect t.live masked,
   { t with live := t.live.zipWith (fun p b => if b then TOMB else p) masked })

/-- `active = self.live.gather(1, seats[:, None]).squeeze(1)`: the binding
component of slot `p` at seat `s`. -/
def dueOwner (p : Pair) (s : Int) : Int :=
  if s = 0 then p.1 else p.2

def Tracker.active (t : Tracker) (seats : List Int) : List Int :=
  t.live.zipWith dueOwner seats

/-- `totals.scatter_add_(0, live_active, ones)` over a zero vector of length
`n_agents` is the histogram of the live active owners. -/
def Tracker.totals (t : Tracker) (seats : List Int) : List Int :=
  let live_active := (t.active seats).filter (fun v => -1 < v)
  (List.range t.names.length).map (fun a : Nat => (live_active.count (a : Int) : Int))

/-- Index of the first maximal entry (`torch.argmax`). -/
def argmaxIdx : List Int → Nat
  | [] => 0
  | x :: xs =>
    let j := argmaxIdx xs
    if xs.getD j x ≤ x then 0 else j + 1

/-- `suggestion = totals.argmax()`. -/
def Tracker.suggestion (t : Tracker) (seats : List Int) : Nat :=
  argmaxIdx (t.totals seats)

/-- `mask = (active == suggestion)` before the dispatch-cap truncation. -/
def Tracker.baseMask (t : Tracker) (seats : List Int) : List Bool :=
  (t.active seats).map (fun v => v == (t.suggestion seats : Int))

/-- `mask & (mask.cumsum(0) < max_dispatch)`: keep a set bit only while the
inclusive running count stays below the cap.  `c` is the count so far. -/
def truncMaskFrom (md : Nat) : Nat → List Bool → List Bool
  | _, [] => []
  | c, b :: bs =>
    let c' := if b then c + 1 else c
    (b && decide (c' < md)) :: truncMaskFrom md c' bs

/-- The dispatch mask returned by `Tracker.suggest`. -/
def Tracker.mask (t : Tracker) (seats : List Int) : List Bool :=
  truncMaskFrom t.max_dispatch 0 (t.baseMask seats)

/-- `Tracker.suggest`: `(names[suggestion], mask, live[mask])`. -/
def Tracker.suggest (t : Tracker) (seats : List Int) :
    Int × List Bool × List Pair :=
  (t.names.getD (t.suggestion seats) 0, t.mask seats, maskSelect t.live (t.mask seats))

/-! ### Evaluator

`Evaluator.record` accumulates into `stats.wins` via the module-level
`scatter_add_` helper, which ravels an index pair `(i, j)` of a row-major
`width`-column grid as `rows + width*cols = i + width*j`, i.e. it lands in grid
cell `(j, i)`.  The per-tick external data (`transitions`) is a terminal flag
and a per-seat reward pair for each dispatched slot. -/

structure Record where
  names : Int × Int
  wins : Int × Int
  moves : Int
  games : Int
deriving DecidableEq

structure EvalState where
  tracker : Tracker
  wins : Int → Int → Int × Int
  moves : Int → Int → Int

/-- One external transition for a dispatched slot: `(terminal, rewards)`. -/
abbrev Trans := Bool × (Int × Int)

/-- One tick of external input: the seats vector and the per-dispatched-slot
transitions. -/
abbrev StepIn := List Int × List Trans

/-- `wins = (transitions.rewards == 1)` for one slot's reward pair. -/
def winInd (r : Int × Int) : Int × Int :=
  ((if r.1 = 1 then 1 else 0), (if r.2 = 1 then 1 else 0))

/-- Total wins in one slot's reward pair. -/
def winContrib (r : Int × Int) : Int :=
  (winInd r).1 + (winInd r).2

/-- `scatter_add_(stats.wins[:, :, s], live, wins[:, s])` for both seats:
binding `(i, j)` ravels to cell `(j, i)`. -/
def addWins (w : Int → Int → Int × Int) (pairs : List (Pair × (Int × Int))) :
    Int → Int → Int × Int :=
  pairs.foldl
    (fun w x =>
      fun a b =>
        if a = x.1.2 ∧ b = x.1.1 then
          ((w a b).1 + (winInd x.2).1, (w a b).2 + (winInd x.2).2)
        else w a b)
    w

/-- `scatter_add_(stats.moves, live, 1)`: binding `(i, j)` ravels to cell `(j, i)`. -/
def addMoves (m : Int → Int → Int) (liveB : List Pair) : Int → Int → Int :=
  liveB.foldl
    (fun m p => fun a b => if a = p.2 ∧ b = p.1 then m a b + 1 else m a b)
    m

/-- The row-major cell grid of a `c × c` stats tensor. -/
def cellGrid (c : Nat) : List (Nat × Nat) :=
  (List.range c).product (List.range c)

/-- `done = stats.wins.sum(-1) == n_envs_per`, over the grid. -/
def doneCells (c : Nat) (n : Int) (w : Int → Int → Int × Int) : List (Nat × Nat) :=
  (cellGrid c).filter (fun x => (w x.1 x.2).1 + (w x.1 x.2).2 == n)

/-- The finalized result for one done cell (`names`, per-seat wins, moves,
`games = sum(item.wins)`). -/
def mkRecord (names : List Int) (w : Int → Int → Int × Int) (m : Int → Int → Int)
    (x : Nat × Nat) : Record :=
  { names := (names.getD x.1 0, names.getD x.2 0)
    wins := w x.1 x.2
    moves := m x.1 x.2
    games := (w x.1 x.2).1 + (w x.1 x.2).2 }

/-- `Evaluator.record`: accumulate wins and moves for the dispatched bindings,
emit a record per done cell, then `stats.wins[done] = -1`. -/
def Evaluator.record (s : EvalState) (trans : List Trans) (liveB : List Pair) :
    EvalState × List Record :=
  let w := addWins s.wins (liveB.zip (trans.map (fun x => x.2)))
  let m := addMoves s.moves liveB
  let c := s.tracker.names.length
  let n := s.tracker.n_envs_per
  let recs := (doneCells c n w).map (mkRecord s.tracker.names w m)
  let w' := fun a b =>
    if 0 ≤ a ∧ a < (c : Int) ∧ 0 ≤ b ∧ b < (c : Int) ∧ (w a b).1 + (w a b).2 = n
    then ((-1 : Int), (-1 : Int)) else w a b
  ({ s with wins := w', moves := m }, recs)

/-- `Evaluator.step`: suggest, external step (input), update, record. -/
def Evaluator.step (s : EvalState) (seats : List Int) (trans : List Trans) :
    EvalState × List Record :=
  let mask := s.tracker.mask seats
  let liveB := maskSelect s.tracker.live mask
  let t' := (s.tracker.update (trans.map (fun x => x.1)) mask).2
  Evaluator.record { s with tracker := t' } trans liveB

/-- Drive `Evaluator.step` over a list of tick inputs, collecting the emitted
records. -/
def Evaluator.run (s : EvalState) (steps : List StepIn) : EvalState × List Record :=
  steps.foldl (fun acc st =>
    let out := Evaluator.step acc.1 st.1 st.2
    (out.1, acc.2 ++ out.2)) (s, [])

/-- The evaluator state built by `Evaluator.__init__` for a given progress
matrix (zero per-matchup statistics). -/
def Evaluator.mkStateWith (names : List Int) (values : List (List Int)) (n : Int)
    (md : Nat) : EvalState :=
  { tracker := Tracker.mkState n names values md
    wins := fun _ _ => (0, 0)
    moves := fun _ _ => 0 }

/-- The evaluator state built by `Evaluator.__init__` on the default
`games=None` path (all-zero progress matrix over the agent list). -/
def Evaluator.mkState (names : List Int) (n : Int) (md : Nat) : EvalState :=
  Evaluator.mkStateWith names (zeroMat names.length) n md

/-- `Evaluator.__init__` with `games=None`: an all-zero `DataFrame` over the
agent identities, handed to the `Tracker` construction. -/
def Evaluator.init (names : List Int) (n : Int) (md : Nat) :
    Except ConfigErr EvalState :=
  (Tracker.init n names names (zeroMat names.length) md).map
    (fun t => { tracker := t, wins := fun _ _ => (0, 0), moves := fun _ _ => 0 })

/-! ### Statement and proof-support definitions -/

/-- Entry `(i, j)` of a matrix, with the usual out-of-range default `0`. -/
def matEntry (m : List (List Int)) (i j : Nat) : Int :=
  (m.getD i []).getD j 0

/-- The sum, over off-diagonal index pairs, of the clipped residual
`n − G[i][j]` of a progress matrix. -/
def offDiagResidSum (n : Int) (values : List (List Int)) : Nat :=
  ((List.range values.length).map (fun a =>
    ((List.range values.length).map (fun b =>
      if a = b then 0 else (n - matEntry values a b).toNat)).sum)).sum

/-- Pointwise relation between the construction-time slot pool and a later
pool: each slot either keeps its binding or has been tombstoned. -/
def Rel (l₀ l : List Pair) : Prop :=
  List.Forall₂ (fun p q => q = p ∨ q = TOMB) l₀ l

/-- The number of slots whose construction-time binding was `q` and that are
now tombstoned. -/
def termCount (l₀ l : List Pair) (q : Pair) : Nat :=
  (l₀.zip l).countP (fun x => x.1 == q && x.2 == TOMB)

/-- The number of finalized records carrying the names of cell `(a, b)`. -/
def RecCount (names : List Int) (R : List Record) (a b : Nat) : Nat :=
  R.countP (fun r => r.names == (names.getD a 0, names.getD b 0))

/-- Componentwise win contributions of a binding/reward list to stats cell
`(a, b)`; a binding `(i, j)` feeds cell `(j, i)`. -/
def cellContrib (a b : Int) : List (Pair × (Int × Int)) → Int × Int
  | [] => (0, 0)
  | x :: L =>
    let r := cellContrib a b L
    if a = x.1.2 ∧ b = x.1.1 then (r.1 + (winInd x.2).1, r.2 + (winInd x.2).2) else r

/-- The well-formedness of a construction-time slot pool over `c` agents with
per-matchup target `n`: every slot is bound to an in-range off-diagonal pair,
and every in-range off-diagonal pair owns exactly `n` slots. -/
def WfPool (l₀ : List Pair) (c : Nat) (n : Int) : Prop :=
  (∀ p ∈ l₀, ∃ a b : Nat, a < c ∧ b < c ∧ a ≠ b ∧ p = ((a : Int), (b : Int))) ∧
  (∀ a b : Nat, a < c → b < c → a ≠ b → (l₀.count ((a : Int), (b : Int)) : Int) = n)

/-- Run invariant, per stats cell `(a, b)`, for runs in which every completed
game produces exactly one winning seat.  Diagonal cells never accumulate;
an off-diagonal cell either has not been finalized (its wins total the
terminated slots of the transposed binding, still short of the target) or has
been finalized exactly once with `games = n` and its accumulator reset. -/
def CellInv (l₀ : List Pair) (names : List Int) (n : Int)
    (w : Int → Int → Int × Int) (l : List Pair) (R : List Record) (a b : Nat) : Prop :=
  (a = b → w a b = (0, 0) ∧ RecCount names R a b = 0) ∧
  (a ≠ b →
    (RecCount names R a b = 0 ∧
      0 ≤ (w a b).1 ∧ 0 ≤ (w a b).2 ∧
      (w a b).1 + (w a b).2 = (termCount l₀ l ((b : Int), (a : Int)) : Int) ∧
      (termCount l₀ l ((b : Int), (a : Int)) : Int) < n) ∨
    (RecCount names R a b = 1 ∧
      (∀ r ∈ R, r.names = (names.getD a 0, names.getD b 0) → r.games = n) ∧
      w a b = (-1, -1) ∧
      (termCount l₀ l ((b : Int), (a : Int)) : Int) = n))

/-- As `CellInv`, but for runs in which a completed game may be a draw: the
wins total of an unfinalized cell is only bounded by the terminated-slot
count of the transposed binding. -/
def CellInvW (l₀ : List Pair) (names : List Int) (n : Int)
    (w : Int → Int → Int × Int) (l : List Pair) (R : List Record) (a b : Nat) : Prop :=
  (a = b → w a b = (0, 0) ∧ RecCount names R a b = 0) ∧
  (a ≠ b →
    (RecCount names R a b = 0 ∧
      0 ≤ (w a b).1 ∧ 0 ≤ (w a b).2 ∧
      (w a b).1 + (w a b).2 ≤ (termCount l₀ l ((b : Int), (a : Int)) : Int) ∧
      (termCount l₀ l ((b : Int), (a : Int)) : Int) ≤ n) ∨
    (RecCount names R a b = 1 ∧
      (∀ r ∈ R, r.names = (names.getD a 0, names.getD b 0) → r.games = n) ∧
      w a b = (-1, -1) ∧
      (termCount l₀ l ((b : Int), (a : Int)) : Int) = n))

/-- Global run invariant (exactly-one-winner runs). -/
def Inv (l₀ : List Pair) (names : List Int) (n : Int) (md : Nat)
    (s : EvalState) (R : List Record) : Prop :=
  s.tracker.n_envs_per = n ∧ s.tracker.names = names ∧
  s.tracker.max_dispatch = md ∧ Rel l₀ s.tracker.live ∧
  ∀ a b : Nat, a < names.length → b < names.length →
    CellInv l₀ names n s.wins s.tracker.live R a b

/-- Global run invariant (at-most-one-winner runs). -/
def InvW (l₀ : List Pair) (names : List Int) (n : Int) (md : Nat)
    (s : EvalState) (R : List Record) : Prop :=
  s.tracker.n_envs_per = n ∧ s.tracker.names = names ∧
  s.tracker.max_dispatch = md ∧ Rel l₀ s.tracker.live ∧
  ∀ a b : Nat, a < names.length → b < names.length →
    CellInvW l₀ names n s.wins s.tracker.live R a b

/-- Strict state of one designated cell after a draw has been recorded for its
transposed binding: the cell is unfinalized and its wins total is at least one
short of its terminated-slot count. -/
def StrictCell (l₀ : List Pair) (names : List Int)
    (w : Int → Int → Int × Int) (l : List Pair) (R : List Record) (a b : Nat) : Prop :=
  RecCount names R a b = 0 ∧
  0 ≤ (w a b).1 ∧ 0 ≤ (w a b).2 ∧
  (w a b).1 + (w a b).2 + 1 ≤ (termCount l₀ l ((b : Int), (a : Int)) : Int)

/-- A valid run for exactly-one-winner simulations: per tick, the seats vector
matches the slot pool, the transition batch matches the dispatch mask, a
terminal transition has exactly one seat with reward `1`, and a non-terminal
transition has none. -/
def ValidRun : EvalState → List StepIn → Prop
  | _, [] => True
  | s, st :: rest =>
    st.1.length = s.tracker.live.length ∧
    st.2.length = (s.tracker.mask st.1).count true ∧
    (∀ x ∈ st.2, (x.1 = true → winContrib x.2 = 1) ∧ (x.1 = false → winContrib x.2 = 0)) ∧
    ValidRun (Evaluator.step s st.1 st.2).1 rest

/-- As `ValidRun`, but a terminal transition may also be a draw (at most one
seat with reward `1`). -/
def ValidRunW : EvalState → List StepIn → Prop
  | _, [] => True
  | s, st :: rest =>
    st.1.length = s.tracker.live.length ∧
    st.2.length = (s.tracker.mask st.1).count true ∧
    (∀ x ∈ st.2, (x.1 = true → winContrib x.2 ≤ 1) ∧ (x.1 = false → winContrib x.2 = 0)) ∧
    ValidRunW (Evaluator.step s st.1 st.2).1 rest

def decValidRun : (steps : List StepIn) → (s : EvalState) → Decidable (ValidRun s steps)
  | [], _ => .isTrue trivial
  | st :: rest, s =>
    letI : Decidable (ValidRun (Evaluator.step s st.1 st.2).1 rest) := decValidRun rest _
    decidable_of_iff
      (st.1.length = s.tracker.live.length ∧
       st.2.length = (s.tracker.mask st.1).count true ∧
       (∀ x ∈ st.2, (x.1 = true → winContrib x.2 = 1) ∧ (x.1 = false → winContrib x.2 = 0)) ∧
       ValidRun (Evaluator.step s st.1 st.2).1 rest)
      (by rfl)

instance (s : EvalState) (steps : List StepIn) : Decidable (ValidRun s steps) :=
  decValidRun steps s

def decValidRunW : (steps : List StepIn) → (s : EvalState) → Decidable (ValidRunW s steps)
  | [], _ => .isTrue trivial
  | st :: rest, s =>
    letI : Decidable (ValidRunW (Evaluator.step s st.1 st.2).1 rest) := decValidRunW rest _
    decidable_of_iff
      (st.1.length = s.tracker.live.length ∧
       st.2.length = (s.tracker.mask st.1).count true ∧
       (∀ x ∈ st.2, (x.1 = true → winContrib x.2 ≤ 1) ∧ (x.1 = false → winContrib x.2 = 0)) ∧
       ValidRunW (Evaluator.step s st.1 st.2).1 rest)
      (by rfl)

instance (s : EvalState) (steps : List StepIn) : Decidable (ValidRunW s steps) :=
  decValidRunW steps s

/-! ## Generic list lemmas -/

theorem getD_zipWith {α β γ : Type} (f : α → β → γ) (dx : α) (dy : β) (d : γ) :
    ∀ (xs : List α) (ys : List β) (k : Nat), k < xs.length → k < ys.length →
      (List.zipWith f xs ys).getD k d = f (xs.getD k dx) (ys.getD k dy)
  | [], _, _, h, _ => absurd h (by simp)
  | _ :: _, [], _, _, h => absurd h (by simp)
  | _ :: _, _ :: _, 0, _, _ => rfl
  | _ :: xs, _ :: ys, k + 1, h1, h2 => by
    simpa using getD_zipWith f dx dy d xs ys k (by simpa using h1) (by simpa using h2)

theorem getD_map {α β : Type} (f : α → β) (dx : α) (d : β) :
    ∀ (xs : List α) (k : Nat), k < xs.length → (xs.map f).getD k d = f (xs.getD k dx)
  | [], _, h => absurd h (by simp)
  | _ :: _, 0, _ => rfl
  | _ :: xs, k + 1, h => by
    simpa using getD_map f dx d xs k (by simpa using h)

theorem getD_mem {α : Type} (d : α) :
    ∀ (xs : List α) (k : Nat), k < xs.length → xs.getD k d ∈ xs
  | [], _, h => absurd h (by simp)
  | x :: _, 0, _ => List.mem_cons_self x _
  | _ :: xs, k + 1, h =>
    List.mem_cons_of_mem _ (getD_mem d xs k (by simpa using h))

theorem getD_range (d : Nat) : ∀ (c k : Nat), k < c → (List.range c).getD k d = k := by
  intro c k h
  rw [List.getD_eq_getElem?_getD, List.getElem?_range h]
  rfl

theorem getD_default {α : Type} (d : α) :
    ∀ (xs : List α) (k : Nat), xs.length ≤ k → xs.getD k d = d
  | [], _, _ => rfl
  | _ :: _, 0, h => absurd h (by simp)
  | _ :: xs, k + 1, h => getD_default d xs k (by simpa using h)

theorem getD_inj_of_nodup :
    ∀ (names : List Int), names.Nodup → ∀ a b : Nat, a < names.length →
      b < names.length → names.getD a 0 = names.getD b 0 → a = b
  | [], _, a, _, ha, _, _ => absurd ha (by simp)
  | x :: xs, hnd, 0, 0, _, _, _ => rfl
  | x :: xs, hnd, 0, b + 1, _, hb, h => by
    exfalso
    have h' : x = xs.getD b 0 := by simpa using h
    have hx : x ∈ xs := h' ▸ getD_mem 0 xs b (by simpa using hb)
    exact (List.nodup_cons.mp hnd).1 hx
  | x :: xs, hnd, a + 1, 0, ha, _, h => by
    exfalso
    have h' : x = xs.getD a 0 := by simpa using h.symm
    have hx : x ∈ xs := h' ▸ getD_mem 0 xs a (by simpa using ha)
    exact (List.nodup_cons.mp hnd).1 hx
  | x :: xs, hnd, a + 1, b + 1, ha, hb, h => by
    have := getD_inj_of_nodup xs (List.nodup_cons.mp hnd).2 a b
      (by simpa using ha) (by simpa using hb) (by simpa using h)
    omega

theorem map_sum_eq_range {α : Type} (f : α → Nat) (d : α) :
    ∀ (xs : List α), (xs.map f).sum
      = ((List.range xs.length).map (fun k => f (xs.getD k d))).sum := by
  intro xs
  induction xs with
  | nil => rfl
  | cons x xs ih =>
    simp only [List.map_cons, List.sum_cons, List.length_cons,
      List.range_succ_eq_map, List.map_map]
    simp only [Function.comp_def, List.getD_cons_zero, List.getD_cons_succ]
    rw [ih]

/-! ## live_indices lemmas -/

theorem length_rowSlotsFrom (i : Nat) :
    ∀ (j : Nat) (row : List Int),
      (rowSlotsFrom i j row).length = (row.map Int.toNat).sum
  | _, [] => rfl
  | j, v :: vs => by
    simp [rowSlotsFrom, length_rowSlotsFrom i (j + 1) vs]

theorem length_liveIndicesFrom :
    ∀ (i : Nat) (rows : List (List Int)),
      (liveIndicesFrom i rows).length = (rows.map (fun row => (row.map Int.toNat).sum)).sum
  | _, [] => rfl
  | i, row :: rows => by
    simp [liveIndicesFrom, length_rowSlotsFrom, length_liveIndicesFrom (i + 1) rows]

theorem count_rowSlotsFrom (i a b : Nat) :
    ∀ (j : Nat) (row : List Int),
      (rowSlotsFrom i j row).count ((a : Int), (b : Int))
        = if a = i ∧ j ≤ b then (row.getD (b - j) 0).toNat else 0
  | j, [] => by
    simp only [rowSlotsFrom, List.count_nil, List.getD_nil]
    split <;> rfl
  | j, v :: vs => by
    rw [rowSlotsFrom, List.count_append, List.count_replicate,
      count_rowSlotsFrom i a b (j + 1) vs]
    have hcast : ((((i : Int), (j : Int)) == ((a : Int), (b : Int))) = true) ↔ (a = i ∧ b = j) := by
      rw [beq_iff_eq]
      constructor
      · intro h
        have h1 : (i : Int) = a := congrArg Prod.fst h
        have h2 : (j : Int) = b := congrArg Prod.snd h
        exact ⟨by exact_mod_cast h1.symm, by exact_mod_cast h2.symm⟩
      · rintro ⟨h1, h2⟩
        subst h1
        subst h2
        rfl
    by_cases hc : a = i ∧ b = j
    · rw [hcast.mpr hc]
      have h1 : ¬ (a = i ∧ j + 1 ≤ b) := by omega
      have h2 : a = i ∧ j ≤ b := by omega
      have h3 : b - j = 0 := by omega
      rw [if_neg h1, if_pos h2, h3]
      simp
    · have hfalse : (((i : Int), (j : Int)) == ((a : Int), (b : Int))) = false := by
        rw [← Bool.not_eq_true]
        exact fun h => hc (hcast.mp h)
      rw [hfalse]
      by_cases hcc : a = i ∧ j ≤ b
      · have h1 : a = i ∧ j + 1 ≤ b := by omega
        have h2 : b - j = (b - (j + 1)) + 1 := by omega
        rw [if_pos h1, if_pos hcc, h2]
        simp
      · have h1 : ¬ (a = i ∧ j + 1 ≤ b) := by omega
        rw [if_neg h1, if_neg hcc]
        simp

theorem count_liveIndicesFrom (a b : Nat) :
    ∀ (i : Nat) (rows : List (List Int)),
      (liveIndicesFrom i rows).count ((a : Int), (b : Int))
        = if i ≤ a then ((rows.getD (a - i) []).getD b 0).toNat else 0
  | _, [] => by
    simp only [liveIndicesFrom, List.count_nil, List.getD_nil]
    split <;> rfl
  | i, row :: rows => by
    rw [liveIndicesFrom, List.count_append, count_rowSlotsFrom i a b 0 row,
      count_liveIndicesFrom a b (i + 1) rows]
    by_cases hai : a = i
    · subst hai
      have h1 : ¬ a + 1 ≤ a := by omega
      simp [h1]
    · by_cases hle : i ≤ a
      · have h1 : i + 1 ≤ a := by omega
        have h2 : a - i = (a - (i + 1)) + 1 := by omega
        simp [hai, hle, h1, h2]
      · have h1 : ¬ i + 1 ≤ a := by omega
        simp [hai, hle, h1]

/-- The number of slots bound to `(a, b)` is the clipped residual entry. -/
theorem count_live_indices (residual : List (List Int)) (a b : Nat) :
    (live_indices residual).count ((a : Int), (b : Int))
      = (matEntry residual a b).toNat := by
  rw [live_indices, count_liveIndicesFrom a b 0 residual, matEntry]
  simp

theorem mem_rowSlotsFrom (i : Nat) :
    ∀ (j : Nat) (row : List Int) (p : Pair), p ∈ rowSlotsFrom i j row →
      ∃ k : Nat, k < row.length ∧ p = ((i : Int), ((j + k : Nat) : Int)) ∧
        0 < row.getD k 0
  | _, [], _, h => absurd h (by simp [rowSlotsFrom])
  | j, v :: vs, p, h => by
    rw [rowSlotsFrom, List.mem_append] at h
    rcases h with h | h
    · refine ⟨0, by simp, ?_, ?_⟩
      · have := List.eq_of_mem_replicate h
        simpa using this
      · have hv : 0 < v.toNat := by
          by_contra hz
          rw [Nat.pos_iff_ne_zero] at hz
          push_neg at hz
          simp [hz] at h
        simpa using hv
    · obtain ⟨k, hk, hp, hpos⟩ := mem_rowSlotsFrom i (j + 1) vs p h
      refine ⟨k + 1, by simpa using hk, ?_, by simpa using hpos⟩
      rw [hp]
      have : j + 1 + k = j + (k + 1) := by omega
      rw [this]

theorem mem_liveIndicesFrom :
    ∀ (i : Nat) (rows : List (List Int)) (p : Pair), p ∈ liveIndicesFrom i rows →
      ∃ r k : Nat, r < rows.length ∧ k < (rows.getD r []).length ∧
        p = (((i + r : Nat) : Int), (k : Int)) ∧ 0 < (rows.getD r []).getD k 0
  | _, [], _, h => absurd h (by simp [liveIndicesFrom])
  | i, row :: rows, p, h => by
    rw [liveIndicesFrom, List.mem_append] at h
    rcases h with h | h
    · obtain ⟨k, hk, hp, hpos⟩ := mem_rowSlotsFrom i 0 row p h
      exact ⟨0, k, by simp, by simpa using hk, by simpa using hp, by simpa using hpos⟩
    · obtain ⟨r, k, hr, hk, hp, hpos⟩ := mem_liveIndicesFrom (i + 1) rows p h
      refine ⟨r + 1, k, by simpa using hr, by simpa using hk, ?_, by simpa using hpos⟩
      rw [hp]
      have : i + 1 + r = i + (r + 1) := by omega
      rw [this]

theorem mem_live_indices (residual : List (List Int)) (p : Pair)
    (h : p ∈ live_indices residual) :
    ∃ r k : Nat, r < residual.length ∧ k < (residual.getD r []).length ∧
      p = ((r : Int), (k : Int)) ∧ 0 < (residual.getD r []).getD k 0 := by
  obtain ⟨r, k, hr, hk, hp, hpos⟩ := mem_liveIndicesFrom 0 residual p h
  exact ⟨r, k, hr, hk, by simpa using hp, hpos⟩

/-! ## Construction lemmas -/

theorem getD_replicate {α : Type} (x d : α) :
    ∀ (c k : Nat), k < c → (List.replicate c x).getD k d = x
  | 0, _, h => absurd h (by simp)
  | _ + 1, 0, _ => rfl
  | c + 1, k + 1, h => by
    rw [List.replicate_succ, List.getD_cons_succ]
    exact getD_replicate x d c k (by omega)

theorem length_setDiag (n : Int) (values : List (List Int)) :
    (setDiag n values).length = values.length := by
  simp [setDiag]

theorem row_setDiag (n : Int) (values : List (List Int)) (i : Nat)
    (hi : i < values.length) :
    (setDiag n values).getD i []
      = (List.range (values.getD i []).length).zipWith
          (fun j v => if i = j then n else v) (values.getD i []) := by
  rw [setDiag, getD_zipWith _ 0 [] [] _ _ i (by simpa using hi) hi, getD_range 0 _ i hi]

theorem rowlen_setDiag (n : Int) (values : List (List Int)) (i : Nat)
    (hi : i < values.length) :
    ((setDiag n values).getD i []).length = (values.getD i []).length := by
  rw [row_setDiag n values i hi]
  simp

theorem matEntry_setDiag (n : Int) (values : List (List Int)) (i j : Nat)
    (hi : i < values.length) (hj : j < (values.getD i []).length) :
    matEntry (setDiag n values) i j = if i = j then n else matEntry values i j := by
  rw [matEntry, matEntry, row_setDiag n values i hi,
    getD_zipWith _ 0 0 0 _ _ j (by simpa using hj) hj, getD_range 0 _ j hj]

theorem length_residMat (n : Int) (g : List (List Int)) :
    (residMat n g).length = g.length := by
  simp [residMat]

theorem rowlen_residMat (n : Int) (g : List (List Int)) (i : Nat)
    (hi : i < g.length) :
    ((residMat n g).getD i []).length = (g.getD i []).length := by
  rw [residMat, getD_map _ [] [] g i hi]
  simp

theorem matEntry_residMat (n : Int) (g : List (List Int)) (i j : Nat)
    (hi : i < g.length) (hj : j < (g.getD i []).length) :
    matEntry (residMat n g) i j = n - matEntry g i j := by
  rw [matEntry, matEntry, residMat, getD_map _ [] [] g i hi, getD_map _ 0 0 _ j hj]

/-- The matrix whose `live_indices` builds the slot pool: entries of the
residual of the diagonal-forced progress matrix. -/
theorem matEntry_resid_setDiag (n : Int) (values : List (List Int)) (i j : Nat)
    (hi : i < values.length) (hj : j < (values.getD i []).length) :
    matEntry (residMat n (setDiag n values)) i j
      = if i = j then 0 else n - matEntry values i j := by
  have hi' : i < (setDiag n values).length := by rwa [length_setDiag]
  have hj' : j < ((setDiag n values).getD i []).length := by
    rwa [rowlen_setDiag n values i hi]
  rw [matEntry_residMat n _ i j hi' hj', matEntry_setDiag n values i j hi hj]
  by_cases h : i = j <;> simp [h]

/-- `WfPool`-shaped facts about a constructed slot pool, from square
dimensions alone. -/
theorem mem_mkState_live (n : Int) (values : List (List Int)) (p : Pair)
    (hsq : ∀ row ∈ values, row.length = values.length)
    (h : p ∈ live_indices (residMat n (setDiag n values))) :
    ∃ a b : Nat, a < values.length ∧ b < values.length ∧ a ≠ b ∧
      p = ((a : Int), (b : Int)) ∧ 0 < n - matEntry values a b := by
  obtain ⟨r, k, hr, hk, hp, hpos⟩ := mem_live_indices _ p h
  have hr' : r < values.length := by
    rwa [length_residMat, length_setDiag] at hr
  have hrow : (values.getD r []).length = values.length :=
    hsq _ (getD_mem [] values r hr')
  have hk' : k < (values.getD r []).length := by
    have h1 : r < (setDiag n values).length := by rwa [length_setDiag]
    rw [rowlen_residMat n _ r (by rwa [length_setDiag]), rowlen_setDiag n values r hr'] at hk
    exact hk
  have hentry : ((residMat n (setDiag n values)).getD r []).getD k 0
      = if r = k then 0 else n - matEntry values r k := by
    have := matEntry_resid_setDiag n values r k hr' hk'
    rwa [matEntry] at this
  rw [hentry] at hpos
  by_cases hrk : r = k
  · rw [if_pos hrk] at hpos
    exact absurd hpos (by omega)
  · rw [if_neg hrk] at hpos
    exact ⟨r, k, hr', by rwa [hrow] at hk', hrk, hp, hpos⟩

theorem count_mkState_live (n : Int) (values : List (List Int)) (a b : Nat)
    (ha : a < values.length) (hb : b < values.length)
    (hsq : ∀ row ∈ values, row.length = values.length) :
    (live_indices (residMat n (setDiag n values))).count ((a : Int), (b : Int))
      = if a = b then 0 else (n - matEntry values a b).toNat := by
  rw [count_live_indices]
  have hrow : (values.getD a []).length = values.length :=
    hsq _ (getD_mem [] values a ha)
  have hb' : b < (values.getD a []).length := by rwa [hrow]
  rw [matEntry_resid_setDiag n values a b ha hb']
  by_cases h : a = b <;> simp [h]

theorem length_mkState_live (n : Int) (values : List (List Int))
    (hsq : ∀ row ∈ values, row.length = values.length) :
    (live_indices (residMat n (setDiag n values))).length
      = offDiagResidSum n values := by
  set R := residMat n (setDiag n values) with hR
  have hRlen : R.length = values.length := by
    rw [hR, length_residMat, length_setDiag]
  rw [live_indices, length_liveIndicesFrom,
    map_sum_eq_range _ [] R, hRlen, offDiagResidSum]
  apply congrArg
  apply List.map_congr_left
  intro r hr
  have hr' : r < values.length := List.mem_range.mp hr
  have hrow : (values.getD r []).length = values.length :=
    hsq _ (getD_mem [] values r hr')
  have hRrow : (R.getD r []).length = (values.getD r []).length := by
    rw [hR, rowlen_residMat n _ r (by rwa [length_setDiag]),
      rowlen_setDiag n values r hr']
  rw [map_sum_eq_range _ 0 (R.getD r []), hRrow, hrow]
  apply congrArg
  apply List.map_congr_left
  intro k hk
  have hk' : k < values.length := List.mem_range.mp hk
  have hent : (R.getD r []).getD k 0 = if r = k then 0 else n - matEntry values r k := by
    have := matEntry_resid_setDiag n values r k hr' (by rwa [hrow])
    rwa [matEntry] at this
  rw [hent]
  by_cases h : r = k <;> simp [h]

theorem matEntry_zeroMat (c : Nat) (a b : Nat) (ha : a < c) (hb : b < c) :
    matEntry (zeroMat c) a b = 0 := by
  rw [matEntry, zeroMat, getD_replicate _ [] c a ha, getD_replicate _ 0 c b hb]

theorem zeroMat_square (c : Nat) : ∀ row ∈ zeroMat c, row.length = (zeroMat c).length := by
  intro row hrow
  rw [zeroMat] at hrow ⊢
  rw [List.eq_of_mem_replicate hrow]
  simp

/-! ## Dispatch mask and argmax lemmas -/

theorem getD_eq_getD {α : Type} :
    ∀ (xs : List α) (k : Nat) (d d' : α), k < xs.length → xs.getD k d = xs.getD k d'
  | [], _, _, _, h => absurd h (by simp)
  | _ :: _, 0, _, _, _ => rfl
  | _ :: xs, k + 1, d, d', h => getD_eq_getD xs k d d' (by simpa using h)

theorem argmaxIdx_lt : ∀ (l : List Int), l ≠ [] → argmaxIdx l < l.length
  | [], h => absurd rfl h
  | x :: xs, _ => by
    by_cases hc : xs.getD (argmaxIdx xs) x ≤ x
    · have h0 : argmaxIdx (x :: xs) = 0 := by
        rw [argmaxIdx]
        exact if_pos hc
      rw [h0]
      simp
    · have hxs : xs ≠ [] := by
        intro h
        subst h
        simp at hc
      have h0 : argmaxIdx (x :: xs) = argmaxIdx xs + 1 := by
        rw [argmaxIdx]
        exact if_neg hc
      rw [h0]
      have := argmaxIdx_lt xs hxs
      simp only [List.length_cons]
      omega

theorem argmaxIdx_ge :
    ∀ (l : List Int) (k : Nat), k < l.length → l.getD k 0 ≤ l.getD (argmaxIdx l) 0
  | [], k, h => absurd h (by simp)
  | x :: xs, k, hk => by
    by_cases hc : xs.getD (argmaxIdx xs) x ≤ x
    · have h0 : argmaxIdx (x :: xs) = 0 := by
        rw [argmaxIdx]
        exact if_pos hc
      rw [h0]
      match k with
      | 0 => exact le_refl x
      | k + 1 =>
        have hk' : k < xs.length := by simpa using hk
        have hxs : xs ≠ [] := by
          intro h
          subst h
          simp at hk'
        have hj : argmaxIdx xs < xs.length := argmaxIdx_lt xs hxs
        have h1 : xs.getD k 0 ≤ xs.getD (argmaxIdx xs) 0 := argmaxIdx_ge xs k hk'
        have h2 : xs.getD (argmaxIdx xs) 0 = xs.getD (argmaxIdx xs) x :=
          getD_eq_getD xs _ 0 x hj
        simp only [List.getD_cons_succ, List.getD_cons_zero]
        exact le_trans h1 (h2 ▸ hc)
    · have h0 : argmaxIdx (x :: xs) = argmaxIdx xs + 1 := by
        rw [argmaxIdx]
        exact if_neg hc
      rw [h0]
      have hxs : xs ≠ [] := by
        intro h
        subst h
        simp at hc
      have hj : argmaxIdx xs < xs.length := argmaxIdx_lt xs hxs
      have h2 : xs.getD (argmaxIdx xs) 0 = xs.getD (argmaxIdx xs) x :=
        getD_eq_getD xs _ 0 x hj
      match k with
      | 0 =>
        simp only [List.getD_cons_succ, List.getD_cons_zero]
        rw [h2]
        omega
      | k + 1 =>
        have hk' : k < xs.length := by simpa using hk
        simpa using argmaxIdx_ge xs k hk'

theorem length_truncMaskFrom (md : Nat) :
    ∀ (c : Nat) (bs : List Bool), (truncMaskFrom md c bs).length = bs.length
  | _, [] => rfl
  | c, b :: bs => by
    rw [truncMaskFrom]
    simpa using length_truncMaskFrom md _ bs

theorem count_truncMaskFrom (md : Nat) :
    ∀ (bs : List Bool) (c : Nat),
      (truncMaskFrom md c bs).count true = min (bs.count true) (md - (c + 1))
  | [], c => by simp [truncMaskFrom]
  | b :: bs, c => by
    cases b
    · rw [show truncMaskFrom md c (false :: bs) = false :: truncMaskFrom md c bs from rfl,
        List.count_cons, List.count_cons, count_truncMaskFrom md bs c]
      simp only [show (false == true) = false from rfl, Bool.false_eq_true, if_false]
      omega
    · rw [show truncMaskFrom md c (true :: bs)
          = (decide (c + 1 < md)) :: truncMaskFrom md (c + 1) bs from rfl,
        List.count_cons, List.count_cons, count_truncMaskFrom md bs (c + 1)]
      by_cases hc : c + 1 < md
      · have hd : decide (c + 1 < md) = true := by simpa using hc
        rw [hd]
        simp only [show (true == true) = true from rfl, if_true]
        omega
      · have hd : decide (c + 1 < md) = false := by simpa using hc
        rw [hd]
        simp only [show (false == true) = false from rfl, Bool.false_eq_true, if_false,
          show (true == true) = true from rfl, if_true]
        omega

theorem truncMaskFrom_getD_imp (md : Nat) :
    ∀ (bs : List Bool) (c k : Nat),
      (truncMaskFrom md c bs).getD k false = true → bs.getD k false = true
  | [], _, _, h => absurd h (by simp [truncMaskFrom])
  | b :: bs, c, 0, h => by
    rw [show truncMaskFrom md c (b :: bs)
        = (b && decide ((if b then c + 1 else c) < md))
          :: truncMaskFrom md (if b then c + 1 else c) bs from rfl,
      List.getD_cons_zero] at h
    rw [List.getD_cons_zero]
    exact (Bool.and_eq_true_iff.mp h).1
  | b :: bs, c, k + 1, h => by
    rw [show truncMaskFrom md c (b :: bs)
        = (b && decide ((if b then c + 1 else c) < md))
          :: truncMaskFrom md (if b then c + 1 else c) bs from rfl,
      List.getD_cons_succ] at h
    rw [List.getD_cons_succ]
    exact truncMaskFrom_getD_imp md bs _ k h

theorem length_active (t : Tracker) (seats : List Int) :
    (t.active seats).length = min t.live.length seats.length := by
  simp [Tracker.active]

theorem length_baseMask (t : Tracker) (seats : List Int) :
    (t.baseMask seats).length = min t.live.length seats.length := by
  simp [Tracker.baseMask, length_active]

theorem length_mask (t : Tracker) (seats : List Int) :
    (t.mask seats).length = min t.live.length seats.length := by
  rw [Tracker.mask, length_truncMaskFrom, length_baseMask]

theorem count_mask (t : Tracker) (seats : List Int) :
    (t.mask seats).count true
      = min ((t.baseMask seats).count true) (t.max_dispatch - 1) := by
  rw [Tracker.mask, count_truncMaskFrom]

/-- Facts about any set bit of the dispatch mask: the position is in range,
its slot is live, and the slot's due-seat owner is the suggested ordinal. -/
theorem mask_bit_facts (t : Tracker) (seats : List Int) (k : Nat)
    (h : (t.mask seats).getD k false = true) :
    k < t.live.length ∧ k < seats.length ∧
    t.live.getD k TOMB ≠ TOMB ∧
    dueOwner (t.live.getD k TOMB) (seats.getD k 0) = (t.suggestion seats : Int) := by
  have hk : k < (t.mask seats).length := by
    by_contra hk
    push_neg at hk
    rw [getD_default false _ k hk] at h
    exact absurd h (by simp)
  rw [length_mask] at hk
  have hk1 : k < t.live.length := lt_of_lt_of_le hk (min_le_left _ _)
  have hk2 : k < seats.length := lt_of_lt_of_le hk (min_le_right _ _)
  have hbase : (t.baseMask seats).getD k false = true :=
    truncMaskFrom_getD_imp _ _ 0 k h
  have hka : k < (t.active seats).length := by
    rw [length_active]
    exact lt_min hk1 hk2
  rw [Tracker.baseMask, getD_map _ 0 false _ k hka] at hbase
  have hact : (t.active seats).getD k 0 = (t.suggestion seats : Int) := by
    exact beq_iff_eq.mp hbase
  rw [Tracker.active, getD_zipWith dueOwner TOMB 0 0 _ _ k hk1 hk2] at hact
  refine ⟨hk1, hk2, ?_, hact⟩
  intro htomb
  rw [htomb] at hact
  have : dueOwner TOMB (seats.getD k 0) = -1 := by
    rw [dueOwner, TOMB]
    simp
  rw [this] at hact
  have : (0 : Int) ≤ (t.suggestion seats : Int) := Int.natCast_nonneg _
  omega

/-! ## scatterMask, maskSelect and termination-count lemmas -/

theorem length_scatterMask : ∀ (m ts : List Bool), (scatterMask m ts).length = m.length
  | [], _ => rfl
  | false :: m, ts => by
    rw [scatterMask]
    simpa using length_scatterMask m ts
  | true :: m, [] => by
    rw [scatterMask]
    simpa using length_scatterMask m []
  | true :: m, t :: ts => by
    rw [scatterMask]
    simpa using length_scatterMask m ts

theorem scatterMask_getD_imp :
    ∀ (m ts : List Bool) (k : Nat),
      (scatterMask m ts).getD k false = true → m.getD k false = true
  | [], _, _, h => absurd h (by simp [scatterMask])
  | false :: m, ts, 0, h => by
    rw [scatterMask, List.getD_cons_zero] at h
    exact absurd h (by simp)
  | false :: m, ts, k + 1, h => by
    rw [scatterMask, List.getD_cons_succ] at h
    rw [List.getD_cons_succ]
    exact scatterMask_getD_imp m ts k h
  | true :: m, _, 0, _ => rfl
  | true :: m, [], k + 1, h => by
    rw [scatterMask, List.getD_cons_succ] at h
    rw [List.getD_cons_succ]
    exact scatterMask_getD_imp m [] k h
  | true :: m, t :: ts, k + 1, h => by
    rw [scatterMask, List.getD_cons_succ] at h
    rw [List.getD_cons_succ]
    exact scatterMask_getD_imp m ts k h

theorem maskSelect_cons_true {α : Type} (x : α) (xs : List α) (m : List Bool) :
    maskSelect (x :: xs) (true :: m) = x :: maskSelect xs m := rfl

theorem maskSelect_cons_false {α : Type} (x : α) (xs : List α) (m : List Bool) :
    maskSelect (x :: xs) (false :: m) = maskSelect xs m := rfl

theorem mem_maskSelect {α : Type} :
    ∀ (xs : List α) (m : List Bool) (y : α), y ∈ maskSelect xs m → y ∈ xs := by
  intro xs m y h
  rw [maskSelect] at h
  obtain ⟨⟨a, b⟩, hmem, rfl⟩ := List.mem_map.mp h
  exact List.of_mem_zip (List.mem_of_mem_filter hmem) |>.1

theorem countP_maskSelect_zip {α γ : Type} (P : α → Bool) (f : γ → Bool) :
    ∀ (m : List Bool) (l : List α) (ts : List γ), m.length = l.length →
      ((maskSelect l m).zip ts).countP (fun x => P x.1 && f x.2)
        = (l.zip (scatterMask m (ts.map f))).countP (fun x => P x.1 && x.2)
  | [], [], ts, _ => by simp [maskSelect, scatterMask]
  | [], _ :: _, _, h => absurd h (by simp)
  | _ :: _, [], _, h => absurd h (by simp)
  | false :: m, x :: l, ts, h => by
    rw [maskSelect_cons_false,
      show scatterMask (false :: m) (ts.map f) = false :: scatterMask m (ts.map f) from rfl,
      List.zip_cons_cons, List.countP_cons,
      countP_maskSelect_zip P f m l ts (by simpa using h)]
    simp
  | true :: m, x :: l, [], h => by
    have ih := countP_maskSelect_zip P f m l [] (by simpa using h)
    rw [List.zip_nil_right] at ih
    simp only [List.countP_nil] at ih
    rw [maskSelect_cons_true,
      show scatterMask (true :: m) (([] : List γ).map f) = false :: scatterMask m [] from rfl,
      List.zip_nil_right, List.zip_cons_cons, List.countP_cons]
    simp only [List.countP_nil, List.map_nil] at ih ⊢
    rw [← ih]
    simp
  | true :: m, x :: l, t :: ts, h => by
    rw [maskSelect_cons_true,
      show scatterMask (true :: m) ((t :: ts).map f) = f t :: scatterMask m (ts.map f) from rfl,
      List.zip_cons_cons, List.zip_cons_cons, List.countP_cons, List.countP_cons,
      countP_maskSelect_zip P f m l ts (by simpa using h)]

theorem countP_zip_le_count (q : Pair) :
    ∀ (l : List Pair) (m : List Bool),
      ((l.zip m).countP fun x => x.1 == q && x.2) ≤ l.count q
  | [], _ => by simp
  | x :: l, [] => by simp
  | x :: l, b :: m => by
    rw [List.zip_cons_cons, List.countP_cons, List.count_cons]
    have ih := countP_zip_le_count q l m
    cases hxq : (x == q : Bool) <;> cases b <;> simp [hxq] <;> omega

theorem Rel_length {l₀ l : List Pair} (h : Rel l₀ l) : l.length = l₀.length :=
  h.length_eq.symm

theorem Rel_refl (l₀ : List Pair) : Rel l₀ l₀ :=
  List.forall₂_same.mpr (fun _ _ => Or.inl rfl)

theorem Rel_update {l₀ l : List Pair} (masked : List Bool)
    (hrel : Rel l₀ l) (hlen : masked.length = l.length) :
    Rel l₀ (l.zipWith (fun p b => if b then TOMB else p) masked) := by
  induction hrel generalizing masked with
  | nil =>
    simp [Rel]
  | @cons p₀ p l₀ l hpq hrel ih =>
    cases masked with
    | nil => exact absurd hlen (by simp)
    | cons b mk =>
      rw [List.zipWith_cons_cons]
      refine List.Forall₂.cons ?_ (ih mk (by simpa using hlen))
      cases b
      · simpa using hpq
      · simp

theorem termCount_cons (p₀ p : Pair) (l₀ l : List Pair) (q : Pair) :
    termCount (p₀ :: l₀) (p :: l) q
      = termCount l₀ l q + (if (p₀ == q && p == TOMB) = true then 1 else 0) := by
  rw [termCount, termCount, List.zip_cons_cons, List.countP_cons]

theorem termCount_self (l₀ : List Pair) (q : Pair)
    (h : ∀ p ∈ l₀, p ≠ TOMB) : termCount l₀ l₀ q = 0 := by
  rw [termCount, List.countP_eq_zero]
  intro x hx
  have hx2 := (List.of_mem_zip hx).2
  intro hcontra
  have := (Bool.and_eq_true_iff.mp hcontra).2
  exact h x.2 hx2 (beq_iff_eq.mp this)

theorem count_eq_live_add_term (q : Pair) (hq : q ≠ TOMB) :
    ∀ {l₀ l : List Pair}, Rel l₀ l → l₀.count q = l.count q + termCount l₀ l q := by
  intro l₀ l hrel
  induction hrel with
  | nil => rfl
  | @cons p₀ p l₀ l hpq hrel ih =>
    rw [List.count_cons, List.count_cons, termCount_cons, ih]
    rcases hpq with hpq | hpq
    · rw [hpq]
      have htomb : (p₀ == TOMB) = false ∨ p₀ ≠ q := by
        by_cases h : p₀ = TOMB
        · exact Or.inr (fun hc => hq (hc ▸ h))
        · exact Or.inl (beq_eq_false_iff_ne.mpr h)
      rcases htomb with htomb | htomb
      · rw [htomb]
        simp only [Bool.and_false, Bool.false_eq_true, if_false]
        omega
      · have hpf : (p₀ == q) = false := beq_eq_false_iff_ne.mpr htomb
        rw [hpf]
        simp only [Bool.false_and, Bool.false_eq_true, if_false]
        omega
    · rw [hpq]
      have hqt : (TOMB == q) = false := beq_eq_false_iff_ne.mpr (fun hc => hq hc.symm)
      rw [hqt]
      simp only [Bool.false_and, Bool.false_eq_true, if_false,
        beq_self_eq_true, Bool.and_true]
      cases hpq2 : (p₀ == q : Bool) <;> simp <;> omega

theorem termCount_update (q : Pair) (hq : q ≠ TOMB) :
    ∀ {l₀ l : List Pair} (masked : List Bool), Rel l₀ l → masked.length = l.length →
      (∀ k, masked.getD k false = true → l.getD k TOMB ≠ TOMB) →
      termCount l₀ (l.zipWith (fun p b => if b then TOMB else p) masked) q
        = termCount l₀ l q + (l.zip masked).countP (fun x => x.1 == q && x.2) := by
  intro l₀ l masked hrel
  induction hrel generalizing masked with
  | nil =>
    intro _ _
    simp [termCount]
  | @cons p₀ p l₀ l hpq hrel ih =>
    intro hlen hlive
    cases masked with
    | nil => exact absurd hlen (by simp)
    | cons b mk =>
      have htail := ih mk (by simpa using hlen)
        (fun k hk => by
          have := hlive (k + 1) (by simpa using hk)
          simpa using this)
      rw [List.zipWith_cons_cons, termCount_cons, termCount_cons,
        List.zip_cons_cons, List.countP_cons, htail]
      cases b
      · simp only [Bool.and_false, Bool.false_eq_true, if_false]
        omega
      · have hp : p ≠ TOMB := by
          have := hlive 0 rfl
          simpa using this
        have hpp : p = p₀ := by
          rcases hpq with h | h
          · exact h
          · exact absurd h hp
        subst hpp
        have h1 : ((TOMB : Pair) == TOMB) = true := by simp
        have h2 : (p == TOMB) = false := beq_eq_false_iff_ne.mpr hp
        simp only [if_true, h1, h2, Bool.and_true, Bool.and_false,
          Bool.false_eq_true, if_false]
        cases hp0 : (p == q : Bool) <;> simp <;> omega

theorem count_eq_zero_of_all_tomb (l : List Pair) (q : Pair) (hq : q ≠ TOMB)
    (h : ∀ p ∈ l, p = TOMB) : l.count q = 0 := by
  rw [List.count_eq_zero]
  intro hc
  exact hq (h q hc)

/-! ## Wins-accumulation lemmas -/

theorem addWins_apply :
    ∀ (L : List (Pair × (Int × Int))) (w : Int → Int → Int × Int) (a b : Int),
      addWins w L a b
        = ((w a b).1 + (cellContrib a b L).1, (w a b).2 + (cellContrib a b L).2)
  | [], w, a, b => by
    simp [addWins, cellContrib]
  | x :: L, w, a, b => by
    rw [show addWins w (x :: L)
        = addWins (fun a b => if a = x.1.2 ∧ b = x.1.1 then
            ((w a b).1 + (winInd x.2).1, (w a b).2 + (winInd x.2).2)
          else w a b) L from rfl,
      addWins_apply L _ a b]
    simp only [cellContrib]
    by_cases h : a = x.1.2 ∧ b = x.1.1
    · rw [if_pos h, if_pos h]
      dsimp only
      rw [Prod.mk.injEq]
      constructor <;> ring
    · rw [if_neg h, if_neg h]

theorem cellContrib_nonneg (a b : Int) :
    ∀ (L : List (Pair × (Int × Int))),
      0 ≤ (cellContrib a b L).1 ∧ 0 ≤ (cellContrib a b L).2
  | [] => by simp [cellContrib]
  | x :: L => by
    have ih := cellContrib_nonneg a b L
    have h1 : (0 : Int) ≤ (winInd x.2).1 := by
      rw [winInd]
      dsimp only
      split <;> omega
    have h2 : (0 : Int) ≤ (winInd x.2).2 := by
      rw [winInd]
      dsimp only
      split <;> omega
    simp only [cellContrib]
    split
    · exact ⟨by dsimp only; omega, by dsimp only; omega⟩
    · exact ih

/-- The pair/transition match predicate: the slot's binding is `(b, a)` (the
binding feeding stats cell `(a, b)`) and the transition is terminal. -/
def cellHit (a b : Int) (x : Pair × Trans) : Bool :=
  x.1 == ((b : Int), (a : Int)) && x.2.1

theorem cellHit_head (a b : Int) (x : Pair × Trans) :
    (cellHit a b x = true) ↔ (x.1 = (b, a) ∧ x.2.1 = true) := by
  rw [cellHit, Bool.and_eq_true_iff, beq_iff_eq]

theorem match_iff (a b : Int) (x : Pair × Trans) :
    (a = x.1.2 ∧ b = x.1.1) ↔ x.1 = (b, a) := by
  constructor
  · rintro ⟨h1, h2⟩
    rw [Prod.ext_iff]
    exact ⟨h2.symm, h1.symm⟩
  · intro h
    rw [h]
    exact ⟨rfl, rfl⟩

theorem cellContrib_map_exact (a b : Int) :
    ∀ (Z : List (Pair × Trans)),
      (∀ x ∈ Z, (x.2.1 = true → winContrib x.2.2 = 1) ∧
        (x.2.1 = false → winContrib x.2.2 = 0)) →
      (cellContrib a b (Z.map (Prod.map id (fun tr => tr.2)))).1
        + (cellContrib a b (Z.map (Prod.map id (fun tr => tr.2)))).2
        = (Z.countP (cellHit a b) : Int)
  | [], _ => by simp [cellContrib]
  | x :: Z, hx => by
    have hhead := hx x (List.mem_cons_self x Z)
    have htail := cellContrib_map_exact a b Z (fun y hy => hx y (List.mem_cons_of_mem _ hy))
    rw [List.map_cons, List.countP_cons]
    simp only [cellContrib, Prod.map_fst, Prod.map_snd, id_eq]
    by_cases h : a = x.1.2 ∧ b = x.1.1
    · have h' : x.1 = (b, a) := (match_iff a b x).mp h
      rw [if_pos h]
      dsimp only
      cases hterm : x.2.1 with
      | true =>
        have hw : winContrib x.2.2 = 1 := hhead.1 hterm
        rw [winContrib] at hw
        have hhit : cellHit a b x = true := (cellHit_head a b x).mpr ⟨h', hterm⟩
        rw [hhit]
        simp only [if_true]
        push_cast
        omega
      | false =>
        have hw : winContrib x.2.2 = 0 := hhead.2 hterm
        rw [winContrib] at hw
        have hhit : cellHit a b x = false := by
          rw [cellHit, hterm]
          simp
        rw [hhit]
        simp only [Bool.false_eq_true, if_false]
        push_cast
        omega
    · rw [if_neg h]
      have h' : ¬ x.1 = (b, a) := fun hc => h ((match_iff a b x).mpr hc)
      have hhit : cellHit a b x = false := by
        rw [cellHit, beq_eq_false_iff_ne.mpr h']
        simp
      rw [hhit]
      simp only [Bool.false_eq_true, if_false]
      exact htail

theorem cellContrib_map_le (a b : Int) :
    ∀ (Z : List (Pair × Trans)),
      (∀ x ∈ Z, (x.2.1 = true → winContrib x.2.2 ≤ 1) ∧
        (x.2.1 = false → winContrib x.2.2 = 0)) →
      (cellContrib a b (Z.map (Prod.map id (fun tr => tr.2)))).1
        + (cellContrib a b (Z.map (Prod.map id (fun tr => tr.2)))).2
        ≤ (Z.countP (cellHit a b) : Int)
  | [], _ => by simp [cellContrib]
  | x :: Z, hx => by
    have hhead := hx x (List.mem_cons_self x Z)
    have htail := cellContrib_map_le a b Z (fun y hy => hx y (List.mem_cons_of_mem _ hy))
    rw [List.map_cons, List.countP_cons]
    simp only [cellContrib, Prod.map_fst, Prod.map_snd, id_eq]
    by_cases h : a = x.1.2 ∧ b = x.1.1
    · have h' : x.1 = (b, a) := (match_iff a b x).mp h
      rw [if_pos h]
      dsimp only
      cases hterm : x.2.1 with
      | true =>
        have hw : winContrib x.2.2 ≤ 1 := hhead.1 hterm
        rw [winContrib] at hw
        have hhit : cellHit a b x = true := (cellHit_head a b x).mpr ⟨h', hterm⟩
        rw [hhit]
        simp only [if_true]
        push_cast
        omega
      | false =>
        have hw : winContrib x.2.2 = 0 := hhead.2 hterm
        rw [winContrib] at hw
        have hhit : cellHit a b x = false := by
          rw [cellHit, hterm]
          simp
        rw [hhit]
        simp only [Bool.false_eq_true, if_false]
        push_cast
        omega
    · rw [if_neg h]
      have h' : ¬ x.1 = (b, a) := fun hc => h ((match_iff a b x).mpr hc)
      have hhit : cellHit a b x = false := by
        rw [cellHit, beq_eq_false_iff_ne.mpr h']
        simp
      rw [hhit]
      simp only [Bool.false_eq_true, if_false]
      exact htail

theorem cellContrib_map_strict (a b : Int) :
    ∀ (Z : List (Pair × Trans)),
      (∀ x ∈ Z, (x.2.1 = true → winContrib x.2.2 ≤ 1) ∧
        (x.2.1 = false → winContrib x.2.2 = 0)) →
      (∃ x ∈ Z, x.1 = ((b : Int), (a : Int)) ∧ x.2.1 = true ∧ winContrib x.2.2 = 0) →
      (cellContrib a b (Z.map (Prod.map id (fun tr => tr.2)))).1
        + (cellContrib a b (Z.map (Prod.map id (fun tr => tr.2)))).2 + 1
        ≤ (Z.countP (cellHit a b) : Int)
  | [], _, hex => by
    obtain ⟨x, hx, _⟩ := hex
    exact absurd hx (by simp)
  | x :: Z, hx, hex => by
    have hhead := hx x (List.mem_cons_self x Z)
    rw [List.map_cons, List.countP_cons]
    simp only [cellContrib, Prod.map_fst, Prod.map_snd, id_eq]
    obtain ⟨y, hy, hy1, hy2, hy3⟩ := hex
    rcases List.mem_cons.mp hy with rfl | hyZ
    · -- the draw transition is the head
      have hmatch : a = y.1.2 ∧ b = y.1.1 := by
        rw [hy1]
        exact ⟨rfl, rfl⟩
      rw [if_pos hmatch]
      dsimp only
      have hw : winContrib y.2.2 = 0 := hy3
      rw [winContrib] at hw
      have hhit : cellHit a b y = true := (cellHit_head a b y).mpr ⟨hy1, hy2⟩
      rw [hhit]
      simp only [if_true]
      have htail := cellContrib_map_le a b Z (fun z hz => hx z (List.mem_cons_of_mem _ hz))
      push_cast
      omega
    · -- the draw transition is in the tail
      have htail := cellContrib_map_strict a b Z
        (fun z hz => hx z (List.mem_cons_of_mem _ hz)) ⟨y, hyZ, hy1, hy2, hy3⟩
      by_cases h : a = x.1.2 ∧ b = x.1.1
      · have h' : x.1 = (b, a) := (match_iff a b x).mp h
        rw [if_pos h]
        dsimp only
        cases hterm : x.2.1 with
        | true =>
          have hw : winContrib x.2.2 ≤ 1 := hhead.1 hterm
          rw [winContrib] at hw
          have hhit : cellHit a b x = true := (cellHit_head a b x).mpr ⟨h', hterm⟩
          rw [hhit]
          simp only [if_true]
          push_cast
          push_cast at htail
          omega
        | false =>
          have hw : winContrib x.2.2 = 0 := hhead.2 hterm
          rw [winContrib] at hw
          have hhit : cellHit a b x = false := by
            rw [cellHit, hterm]
            simp
          rw [hhit]
          simp only [Bool.false_eq_true, if_false]
          push_cast
          push_cast at htail
          omega
      · rw [if_neg h]
        have h' : ¬ x.1 = (b, a) := fun hc => h ((match_iff a b x).mpr hc)
        have hhit : cellHit a b x = false := by
          rw [cellHit, beq_eq_false_iff_ne.mpr h']
          simp
        rw [hhit]
        simp only [Bool.false_eq_true, if_false]
        push_cast
        push_cast at htail
        omega

/-! ## Record-emission counting lemmas -/

theorem natPair_ne_TOMB (i j : Nat) : ((i : Int), (j : Int)) ≠ TOMB := by
  intro h
  rw [TOMB, Prod.ext_iff] at h
  have h1 := h.1
  have : (0 : Int) ≤ (i : Int) := Int.natCast_nonneg i
  omega

theorem natPair_inj {a b c d : Nat}
    (h : ((a : Int), (b : Int)) = ((c : Int), (d : Int))) : a = c ∧ b = d := by
  have h1 : (a : Int) = c := congrArg Prod.fst h
  have h2 : (b : Int) = d := congrArg Prod.snd h
  exact ⟨by exact_mod_cast h1, by exact_mod_cast h2⟩

theorem cellGrid_nodup (c : Nat) : (cellGrid c).Nodup :=
  List.Nodup.product (List.nodup_range c) (List.nodup_range c)

theorem mem_cellGrid (c : Nat) (x : Nat × Nat) : x ∈ cellGrid c ↔ x.1 < c ∧ x.2 < c := by
  obtain ⟨x1, x2⟩ := x
  show (x1, x2) ∈ (List.range c) ×ˢ (List.range c) ↔ _
  rw [List.mem_product, List.mem_range, List.mem_range]

theorem countP_eq_one_of_nodup_mem {α : Type} :
    ∀ (l : List α), l.Nodup → ∀ (y : α), y ∈ l → ∀ (p : α → Bool),
      (∀ x ∈ l, p x = true ↔ x = y) → l.countP p = 1
  | [], _, y, hy, _, _ => absurd hy (by simp)
  | z :: l, hnd, y, hy, p, hp => by
    obtain ⟨hz, hnd'⟩ := List.nodup_cons.mp hnd
    rw [List.countP_cons]
    rcases List.mem_cons.mp hy with rfl | hyl
    · have hpz : p y = true := (hp y (List.mem_cons_self y l)).mpr rfl
      have h0 : l.countP p = 0 := by
        rw [List.countP_eq_zero]
        intro x hx hcontra
        have := (hp x (List.mem_cons_of_mem _ hx)).mp hcontra
        rw [this] at hx
        exact hz hx
      rw [h0, hpz]
      simp
    · have hzy : z ≠ y := by
        intro h
        rw [h] at hz
        exact hz hyl
      have hpz : p z = false := by
        cases hpz : p z with
        | false => rfl
        | true => exact absurd ((hp z (List.mem_cons_self z l)).mp hpz) hzy
      have h1 : l.countP p = 1 :=
        countP_eq_one_of_nodup_mem l hnd' y hyl p
          (fun x hx => hp x (List.mem_cons_of_mem _ hx))
      rw [h1, hpz]
      simp

theorem recs_games (names : List Int) (w : Int → Int → Int × Int)
    (m : Int → Int → Int) (c : Nat) (n : Int) :
    ∀ r ∈ (doneCells c n w).map (mkRecord names w m), r.games = n := by
  intro r hr
  obtain ⟨x, hx, rfl⟩ := List.mem_map.mp hr
  have hx' := (List.mem_filter.mp hx).2
  rw [mkRecord]
  exact beq_iff_eq.mp hx'

theorem recCount_recs (names : List Int) (hnd : names.Nodup)
    (w : Int → Int → Int × Int) (m : Int → Int → Int) (n : Int) (a b : Nat)
    (ha : a < names.length) (hb : b < names.length) :
    RecCount names ((doneCells names.length n w).map (mkRecord names w m)) a b
      = if (w (a : Int) (b : Int)).1 + (w (a : Int) (b : Int)).2 = n then 1 else 0 := by
  rw [RecCount, List.countP_map, doneCells, List.countP_filter]
  have hcongr1 : ∀ x ∈ cellGrid names.length,
      (((fun r : Record => r.names == (names.getD a 0, names.getD b 0))
          ∘ mkRecord names w m) x
        && ((w (x.1 : Int) (x.2 : Int)).1 + (w (x.1 : Int) (x.2 : Int)).2 == n)) = true ↔
      ((x == (a, b) : Bool)
        && ((w (x.1 : Int) (x.2 : Int)).1 + (w (x.1 : Int) (x.2 : Int)).2 == n)) = true := by
    intro x hx
    obtain ⟨hx1, hx2⟩ := (mem_cellGrid _ x).mp hx
    simp only [Function.comp_apply, Bool.and_eq_true_iff, beq_iff_eq, mkRecord]
    constructor
    · rintro ⟨hname, hdone⟩
      have h1 : x.1 = a := getD_inj_of_nodup names hnd x.1 a hx1 ha (congrArg Prod.fst hname)
      have h2 : x.2 = b := getD_inj_of_nodup names hnd x.2 b hx2 hb (congrArg Prod.snd hname)
      refine ⟨?_, hdone⟩
      obtain ⟨y1, y2⟩ := x
      dsimp only at h1 h2
      rw [h1, h2]
    · rintro ⟨hxab, hdone⟩
      subst hxab
      exact ⟨rfl, hdone⟩
  rw [List.countP_congr hcongr1]
  cases hdone : ((w (a : Int) (b : Int)).1 + (w (a : Int) (b : Int)).2 == n) with
  | true =>
    rw [if_pos (beq_iff_eq.mp hdone)]
    have hcongr2 : ∀ x ∈ cellGrid names.length,
        ((x == (a, b) : Bool)
          && ((w (x.1 : Int) (x.2 : Int)).1 + (w (x.1 : Int) (x.2 : Int)).2 == n)) = true ↔
        (x == (a, b)) = true := by
      intro x hx
      simp only [Bool.and_eq_true_iff, beq_iff_eq]
      constructor
      · rintro ⟨h1, _⟩
        exact h1
      · rintro rfl
        exact ⟨rfl, beq_iff_eq.mp hdone⟩
    rw [List.countP_congr hcongr2]
    exact countP_eq_one_of_nodup_mem _ (cellGrid_nodup _) (a, b)
      ((mem_cellGrid _ (a, b)).mpr ⟨ha, hb⟩) _
      (fun x _ => by rw [beq_iff_eq])
  | false =>
    have hne : ¬ ((w (a : Int) (b : Int)).1 + (w (a : Int) (b : Int)).2 = n) := by
      intro hc
      have := beq_iff_eq.mpr hc
      rw [this] at hdone
      exact absurd hdone (by simp)
    rw [if_neg hne, List.countP_eq_zero]
    intro x hx hcontra
    obtain ⟨hx1, hx2⟩ := Bool.and_eq_true_iff.mp hcontra
    have hxab : x = (a, b) := beq_iff_eq.mp hx1
    rw [hxab] at hx2
    rw [beq_iff_eq] at hx2
    exact hne hx2

/-! ## Step unfolding -/

theorem step_tracker_live (s : EvalState) (seats : List Int) (trans : List Trans) :
    (Evaluator.step s seats trans).1.tracker.live
      = s.tracker.live.zipWith (fun p b => if b then TOMB else p)
          (scatterMask (s.tracker.mask seats) (trans.map (fun x => x.1))) := rfl

theorem step_tracker_n (s : EvalState) (seats : List Int) (trans : List Trans) :
    (Evaluator.step s seats trans).1.tracker.n_envs_per = s.tracker.n_envs_per := rfl

theorem step_tracker_names (s : EvalState) (seats : List Int) (trans : List Trans) :
    (Evaluator.step s seats trans).1.tracker.names = s.tracker.names := rfl

theorem step_tracker_md (s : EvalState) (seats : List Int) (trans : List Trans) :
    (Evaluator.step s seats trans).1.tracker.max_dispatch = s.tracker.max_dispatch := rfl

theorem step_wins (s : EvalState) (seats : List Int) (trans : List Trans) :
    (Evaluator.step s seats trans).1.wins
      = (fun A B =>
          if 0 ≤ A ∧ A < (s.tracker.names.length : Int) ∧ 0 ≤ B ∧ B < (s.tracker.names.length : Int) ∧
            (addWins s.wins ((maskSelect s.tracker.live (s.tracker.mask seats)).zip
              (trans.map (fun x => x.2))) A B).1
            + (addWins s.wins ((maskSelect s.tracker.live (s.tracker.mask seats)).zip
              (trans.map (fun x => x.2))) A B).2 = s.tracker.n_envs_per
          then ((-1 : Int), (-1 : Int))
          else addWins s.wins ((maskSelect s.tracker.live (s.tracker.mask seats)).zip
            (trans.map (fun x => x.2))) A B) := rfl

theorem step_recs (s : EvalState) (seats : List Int) (trans : List Trans) :
    (Evaluator.step s seats trans).2
      = (doneCells s.tracker.names.length s.tracker.n_envs_per
          (addWins s.wins ((maskSelect s.tracker.live (s.tracker.mask seats)).zip
            (trans.map (fun x => x.2))))).map
        (mkRecord s.tracker.names
          (addWins s.wins ((maskSelect s.tracker.live (s.tracker.mask seats)).zip
            (trans.map (fun x => x.2))))
          (addMoves s.moves (maskSelect s.tracker.live (s.tracker.mask seats)))) := rfl

theorem countP_liveB_hit (a b : Int) (l : List Pair) (mask : List Bool)
    (trans : List Trans) (hlen : mask.length = l.length) :
    ((maskSelect l mask).zip trans).countP (cellHit a b)
      = (l.zip (scatterMask mask (trans.map (fun x => x.1)))).countP
          (fun x => x.1 == ((b : Int), (a : Int)) && x.2) :=
  countP_maskSelect_zip (fun p => p == ((b : Int), (a : Int))) (fun tr : Trans => tr.1)
    mask l trans hlen

theorem RecCount_append (names : List Int) (R R' : List Record) (a b : Nat) :
    RecCount names (R ++ R') a b = RecCount names R a b + RecCount names R' a b :=
  List.countP_append _ _ _

theorem RecCount_zero_no_match (names : List Int) (R : List Record) (a b : Nat)
    (h : RecCount names R a b = 0) :
    ∀ r ∈ R, r.names ≠ (names.getD a 0, names.getD b 0) := by
  intro r hr hc
  rw [RecCount, List.countP_eq_zero] at h
  exact h r hr (beq_iff_eq.mpr hc)

theorem diag_not_in_pool (l₀ : List Pair) (c : Nat) (n : Int)
    (hwf : WfPool l₀ c n) (a : Nat) : ((a : Int), (a : Int)) ∉ l₀ := by
  intro hmem
  obtain ⟨a', b', _, _, hne', hp⟩ := hwf.1 _ hmem
  obtain ⟨h1, h2⟩ := natPair_inj hp
  exact hne' (h1.symm.trans h2)

/-! ## Step preservation of the run invariants -/

theorem step_Inv (l₀ : List Pair) (names : List Int) (n : Int) (md : Nat)
    (hwf : WfPool l₀ names.length n) (hnd : names.Nodup) (hn : 0 < n)
    (s : EvalState) (R : List Record) (hInv : Inv l₀ names n md s R)
    (seats : List Int) (trans : List Trans)
    (hs : seats.length = s.tracker.live.length)
    (hr : ∀ x ∈ trans, (x.1 = true → winContrib x.2 = 1) ∧
      (x.1 = false → winContrib x.2 = 0)) :
    Inv l₀ names n md (Evaluator.step s seats trans).1
      (R ++ (Evaluator.step s seats trans).2) := by
  obtain ⟨hne, hnm, hmd, hrel, hcell⟩ := hInv
  have hmlen : (s.tracker.mask seats).length = s.tracker.live.length := by
    rw [length_mask, hs, Nat.min_self]
  have hmasklen :
      (scatterMask (s.tracker.mask seats) (trans.map (fun x => x.1))).length
        = s.tracker.live.length := by
    rw [length_scatterMask, hmlen]
  have hmaskbits : ∀ k,
      (scatterMask (s.tracker.mask seats) (trans.map (fun x => x.1))).getD k false = true →
      s.tracker.live.getD k TOMB ≠ TOMB := by
    intro k hk
    exact (mask_bit_facts s.tracker seats k (scatterMask_getD_imp _ _ k hk)).2.2.1
  have hzipr : ∀ x ∈ (maskSelect s.tracker.live (s.tracker.mask seats)).zip trans,
      (x.2.1 = true → winContrib x.2.2 = 1) ∧ (x.2.1 = false → winContrib x.2.2 = 0) := by
    intro x hx
    exact hr x.2 (List.of_mem_zip hx).2
  have hlistmap :
      (maskSelect s.tracker.live (s.tracker.mask seats)).zip (trans.map (fun x => x.2))
        = ((maskSelect s.tracker.live (s.tracker.mask seats)).zip trans).map
            (Prod.map id (fun tr => tr.2)) :=
    List.zip_map_right _ _ _
  refine ⟨hne, hnm, hmd, ?_, ?_⟩
  · rw [step_tracker_live]
    exact Rel_update _ hrel hmasklen
  · intro a b ha hb
    rw [step_wins, step_tracker_live, step_recs, hlistmap, hne, hnm]
    -- per-cell common quantities
    have hq := natPair_ne_TOMB b a
    have hNdef := countP_liveB_hit (a : Int) (b : Int) s.tracker.live
      (s.tracker.mask seats) trans hmlen
    have hterm := termCount_update ((b : Int), (a : Int)) hq
      (scatterMask (s.tracker.mask seats) (trans.map (fun x => x.1))) hrel
      hmasklen hmaskbits
    have hNle := countP_zip_le_count ((b : Int), (a : Int)) s.tracker.live
      (scatterMask (s.tracker.mask seats) (trans.map (fun x => x.1)))
    have hcontrib := cellContrib_map_exact (a : Int) (b : Int)
      ((maskSelect s.tracker.live (s.tracker.mask seats)).zip trans) hzipr
    have hW1 := addWins_apply
      (((maskSelect s.tracker.live (s.tracker.mask seats)).zip trans).map
        (Prod.map id (fun tr => tr.2))) s.wins (a : Int) (b : Int)
    have hsplit := count_eq_live_add_term ((b : Int), (a : Int)) hq hrel
    have hnonneg := cellContrib_nonneg (a : Int) (b : Int)
      (((maskSelect s.tracker.live (s.tracker.mask seats)).zip trans).map
        (Prod.map id (fun tr => tr.2)))
    -- name the numbers
    obtain ⟨hW1f, hW1s⟩ : ((addWins s.wins
        (((maskSelect s.tracker.live (s.tracker.mask seats)).zip trans).map
          (Prod.map id (fun tr => tr.2))) (a : Int) (b : Int)).1
        = (s.wins (a : Int) (b : Int)).1
          + (cellContrib (a : Int) (b : Int)
              (((maskSelect s.tracker.live (s.tracker.mask seats)).zip trans).map
                (Prod.map id (fun tr => tr.2)))).1)
      ∧ ((addWins s.wins
        (((maskSelect s.tracker.live (s.tracker.mask seats)).zip trans).map
          (Prod.map id (fun tr => tr.2))) (a : Int) (b : Int)).2
        = (s.wins (a : Int) (b : Int)).2
          + (cellContrib (a : Int) (b : Int)
              (((maskSelect s.tracker.live (s.tracker.mask seats)).zip trans).map
                (Prod.map id (fun tr => tr.2)))).2) := by
      constructor
      · exact congrArg Prod.fst hW1
      · exact congrArg Prod.snd hW1
    constructor
    · -- diagonal cell
      intro hab
      subst hab
      obtain ⟨hw0, hR0⟩ := (hcell a a ha ha).1 rfl
      have hnot : ((a : Int), (a : Int)) ∉ l₀ := diag_not_in_pool l₀ names.length n hwf a
      have hcount0 : l₀.count ((a : Int), (a : Int)) = 0 :=
        List.count_eq_zero.mpr hnot
      have hlive0 : s.tracker.live.count ((a : Int), (a : Int)) = 0 := by
        omega
      have hN0 : (s.tracker.live.zip
          (scatterMask (s.tracker.mask seats) (trans.map (fun x => x.1)))).countP
            (fun x => x.1 == ((a : Int), (a : Int)) && x.2) = 0 := by
        omega
      have hhit0 : ((maskSelect s.tracker.live (s.tracker.mask seats)).zip trans).countP
          (cellHit (a : Int) (a : Int)) = 0 := by
        rw [hNdef]
        exact hN0
      have hcsum : (cellContrib (a : Int) (a : Int)
          (((maskSelect s.tracker.live (s.tracker.mask seats)).zip trans).map
            (Prod.map id (fun tr => tr.2)))).1
        + (cellContrib (a : Int) (a : Int)
          (((maskSelect s.tracker.live (s.tracker.mask seats)).zip trans).map
            (Prod.map id (fun tr => tr.2)))).2 = 0 := by
        rw [hcontrib, hhit0]
        rfl
      have hc1 : (cellContrib (a : Int) (a : Int)
          (((maskSelect s.tracker.live (s.tracker.mask seats)).zip trans).map
            (Prod.map id (fun tr => tr.2)))).1 = 0 := by
        omega
      have hc2 : (cellContrib (a : Int) (a : Int)
          (((maskSelect s.tracker.live (s.tracker.mask seats)).zip trans).map
            (Prod.map id (fun tr => tr.2)))).2 = 0 := by
        omega
      have hWv : addWins s.wins
          (((maskSelect s.tracker.live (s.tracker.mask seats)).zip trans).map
            (Prod.map id (fun tr => tr.2))) (a : Int) (a : Int) = (0, 0) := by
        rw [hW1, hc1, hc2, hw0]
        simp
      have hWsum0 : (addWins s.wins
          (((maskSelect s.tracker.live (s.tracker.mask seats)).zip trans).map
            (Prod.map id (fun tr => tr.2))) (a : Int) (a : Int)).1
        + (addWins s.wins
          (((maskSelect s.tracker.live (s.tracker.mask seats)).zip trans).map
            (Prod.map id (fun tr => tr.2))) (a : Int) (a : Int)).2 = 0 := by
        rw [hWv]
        rfl
      constructor
      · -- reset leaves the zero cell alone since 0 ≠ n
        dsimp only
        rw [if_neg]
        · exact hWv
        · intro hcond
          have := hcond.2.2.2.2
          omega
      · have hWf0 : (addWins s.wins
            (((maskSelect s.tracker.live (s.tracker.mask seats)).zip trans).map
              (Prod.map id (fun tr => tr.2))) (a : Int) (a : Int)).1 = 0 := by
          rw [hWv]
        have hWs0 : (addWins s.wins
            (((maskSelect s.tracker.live (s.tracker.mask seats)).zip trans).map
              (Prod.map id (fun tr => tr.2))) (a : Int) (a : Int)).2 = 0 := by
          rw [hWv]
        rw [RecCount_append, hR0,
          recCount_recs names hnd _ _ n a a ha ha, if_neg (by omega)]
    · -- off-diagonal cell
      intro hab
      have hcnt : (l₀.count ((b : Int), (a : Int)) : Int) = n :=
        hwf.2 b a hb ha (fun h => hab h.symm)
      rcases (hcell a b ha hb).2 hab with ⟨hR0, hp1, hp2, hsum, hT⟩ | ⟨hR1, hg, hwv, hT⟩
      · -- not yet finalized
        have hS : (addWins s.wins
            (((maskSelect s.tracker.live (s.tracker.mask seats)).zip trans).map
              (Prod.map id (fun tr => tr.2))) (a : Int) (b : Int)).1
          + (addWins s.wins
            (((maskSelect s.tracker.live (s.tracker.mask seats)).zip trans).map
              (Prod.map id (fun tr => tr.2))) (a : Int) (b : Int)).2
          = (termCount l₀ s.tracker.live ((b : Int), (a : Int)) : Int)
            + ((s.tracker.live.zip
                (scatterMask (s.tracker.mask seats) (trans.map (fun x => x.1)))).countP
                  (fun x => x.1 == ((b : Int), (a : Int)) && x.2) : Int) := by
        -- sum after accumulation = old terminations + new terminations
          rw [hW1f, hW1s]
          rw [show (s.wins (a : Int) (b : Int)).1
              + (cellContrib (a : Int) (b : Int)
                (((maskSelect s.tracker.live (s.tracker.mask seats)).zip trans).map
                  (Prod.map id (fun tr => tr.2)))).1
              + ((s.wins (a : Int) (b : Int)).2
              + (cellContrib (a : Int) (b : Int)
                (((maskSelect s.tracker.live (s.tracker.mask seats)).zip trans).map
                  (Prod.map id (fun tr => tr.2)))).2)
            = (s.wins (a : Int) (b : Int)).1 + (s.wins (a : Int) (b : Int)).2
              + ((cellContrib (a : Int) (b : Int)
                (((maskSelect s.tracker.live (s.tracker.mask seats)).zip trans).map
                  (Prod.map id (fun tr => tr.2)))).1
              + (cellContrib (a : Int) (b : Int)
                (((maskSelect s.tracker.live (s.tracker.mask seats)).zip trans).map
                  (Prod.map id (fun tr => tr.2)))).2) from by ring]
          rw [hsum, hcontrib, hNdef]
        by_cases hfin : (termCount l₀ s.tracker.live ((b : Int), (a : Int)) : Int)
            + ((s.tracker.live.zip
                (scatterMask (s.tracker.mask seats) (trans.map (fun x => x.1)))).countP
                  (fun x => x.1 == ((b : Int), (a : Int)) && x.2) : Int) = n
        · -- the cell reaches the target this tick: emitted once, reset
          refine Or.inr ?_
          refine ⟨?_, ?_, ?_, ?_⟩
          · rw [RecCount_append, hR0, recCount_recs names hnd _ _ n a b ha hb,
              if_pos (hS.trans hfin)]
          · intro r hrmem hrname
            rcases List.mem_append.mp hrmem with hrR | hrrecs
            · exact absurd hrname (RecCount_zero_no_match names R a b hR0 r hrR)
            · exact recs_games names _ _ names.length n r hrrecs
          · dsimp only
            rw [if_pos]
            refine ⟨Int.natCast_nonneg a, ?_, Int.natCast_nonneg b, ?_, ?_⟩
            · exact_mod_cast ha
            · exact_mod_cast hb
            · exact hS.trans hfin
          · rw [hterm]
            push_cast
            omega
        · -- still short of the target: stays unfinalized
          refine Or.inl ?_
          refine ⟨?_, ?_, ?_, ?_, ?_⟩
          · rw [RecCount_append, hR0, recCount_recs names hnd _ _ n a b ha hb,
              if_neg (fun hc => hfin (hS.symm.trans hc))]
          · dsimp only
            rw [if_neg (fun hcond => hfin (hS.symm.trans hcond.2.2.2.2))]
            rw [hW1f]
            omega
          · dsimp only
            rw [if_neg (fun hcond => hfin (hS.symm.trans hcond.2.2.2.2))]
            rw [hW1s]
            omega
          · dsimp only
            rw [if_neg (fun hcond => hfin (hS.symm.trans hcond.2.2.2.2))]
            rw [hterm, hS]
            push_cast
            ring
          · rw [hterm]
            push_cast
            omega
      · -- already finalized: nothing changes
        have hlive0 : s.tracker.live.count ((b : Int), (a : Int)) = 0 := by
          omega
        have hN0 : (s.tracker.live.zip
            (scatterMask (s.tracker.mask seats) (trans.map (fun x => x.1)))).countP
              (fun x => x.1 == ((b : Int), (a : Int)) && x.2) = 0 := by
          omega
        have hhit0 : ((maskSelect s.tracker.live (s.tracker.mask seats)).zip trans).countP
            (cellHit (a : Int) (b : Int)) = 0 := by
          rw [hNdef]
          exact hN0
        have hcsum : (cellContrib (a : Int) (b : Int)
            (((maskSelect s.tracker.live (s.tracker.mask seats)).zip trans).map
              (Prod.map id (fun tr => tr.2)))).1
          + (cellContrib (a : Int) (b : Int)
            (((maskSelect s.tracker.live (s.tracker.mask seats)).zip trans).map
              (Prod.map id (fun tr => tr.2)))).2 = 0 := by
          rw [hcontrib, hhit0]
          rfl
        have hWv : addWins s.wins
            (((maskSelect s.tracker.live (s.tracker.mask seats)).zip trans).map
              (Prod.map id (fun tr => tr.2))) (a : Int) (b : Int) = (-1, -1) := by
          rw [hW1]
          rw [show (cellContrib (a : Int) (b : Int)
              (((maskSelect s.tracker.live (s.tracker.mask seats)).zip trans).map
                (Prod.map id (fun tr => tr.2)))).1 = 0 from by omega,
            show (cellContrib (a : Int) (b : Int)
              (((maskSelect s.tracker.live (s.tracker.mask seats)).zip trans).map
                (Prod.map id (fun tr => tr.2)))).2 = 0 from by omega,
            hwv]
          simp
        have hWf0 : (addWins s.wins
            (((maskSelect s.tracker.live (s.tracker.mask seats)).zip trans).map
              (Prod.map id (fun tr => tr.2))) (a : Int) (b : Int)).1 = -1 := by
          rw [hWv]
        have hWs0 : (addWins s.wins
            (((maskSelect s.tracker.live (s.tracker.mask seats)).zip trans).map
              (Prod.map id (fun tr => tr.2))) (a : Int) (b : Int)).2 = -1 := by
          rw [hWv]
        refine Or.inr ?_
        refine ⟨?_, ?_, ?_, ?_⟩
        · rw [RecCount_append, hR1, recCount_recs names hnd _ _ n a b ha hb,
            if_neg (by omega)]
        · intro r hrmem hrname
          rcases List.mem_append.mp hrmem with hrR | hrrecs
          · exact hg r hrR hrname
          · exact recs_games names _ _ names.length n r hrrecs
        · dsimp only
          rw [if_neg]
          · exact hWv
          · intro hcond
            have hcc := hcond.2.2.2.2
            omega
        · rw [hterm]
          push_cast
          omega

/-! ## Run-level lemmas -/

theorem run_acc :
    ∀ (steps : List StepIn) (s : EvalState) (acc : List Record),
      steps.foldl (fun acc st =>
        let out := Evaluator.step acc.1 st.1 st.2
        (out.1, acc.2 ++ out.2)) (s, acc)
        = ((Evaluator.run s steps).1, acc ++ (Evaluator.run s steps).2)
  | [], s, acc => by simp [Evaluator.run]
  | st :: rest, s, acc => by
    rw [Evaluator.run, List.foldl_cons, List.foldl_cons]
    rw [run_acc rest _ _, run_acc rest _ _]
    dsimp only
    rw [List.nil_append, List.append_assoc]

theorem run_cons (s : EvalState) (st : StepIn) (rest : List StepIn) :
    Evaluator.run s (st :: rest)
      = ((Evaluator.run (Evaluator.step s st.1 st.2).1 rest).1,
         (Evaluator.step s st.1 st.2).2
           ++ (Evaluator.run (Evaluator.step s st.1 st.2).1 rest).2) := by
  rw [Evaluator.run, List.foldl_cons]
  dsimp only
  rw [run_acc]
  rw [List.nil_append]

theorem run_append (s : EvalState) (xs ys : List StepIn) :
    Evaluator.run s (xs ++ ys)
      = ((Evaluator.run (Evaluator.run s xs).1 ys).1,
         (Evaluator.run s xs).2 ++ (Evaluator.run (Evaluator.run s xs).1 ys).2) := by
  induction xs generalizing s with
  | nil =>
    rw [List.nil_append]
    rw [show Evaluator.run s [] = (s, []) from rfl]
    rw [List.nil_append]
  | cons st xs ih =>
    rw [List.cons_append, run_cons, run_cons, ih]
    dsimp only
    rw [List.append_assoc]

theorem run_Inv (l₀ : List Pair) (names : List Int) (n : Int) (md : Nat)
    (hwf : WfPool l₀ names.length n) (hnd : names.Nodup) (hn : 0 < n) :
    ∀ (steps : List StepIn) (s : EvalState) (R : List Record),
      ValidRun s steps → Inv l₀ names n md s R →
      Inv l₀ names n md (Evaluator.run s steps).1
        (R ++ (Evaluator.run s steps).2)
  | [], s, R, _, hInv => by
    rw [show Evaluator.run s [] = (s, []) from rfl]
    simpa using hInv
  | st :: rest, s, R, hvalid, hInv => by
    obtain ⟨hs, _, hrw, hrest⟩ := hvalid
    have hstep := step_Inv l₀ names n md hwf hnd hn s R hInv st.1 st.2 hs hrw
    have hih := run_Inv l₀ names n md hwf hnd hn rest
      (Evaluator.step s st.1 st.2).1
      (R ++ (Evaluator.step s st.1 st.2).2) hrest hstep
    rw [run_cons]
    dsimp only
    rw [← List.append_assoc]
    exact hih

/-! ## Initial-state lemmas -/

theorem wf_pool_mkState (names : List Int) (n : Int) (md : Nat) (hn : 0 < n) :
    WfPool (Tracker.mkState n names (zeroMat names.length) md).live names.length n := by
  have hsq := zeroMat_square names.length
  have hzlen : (zeroMat names.length).length = names.length := by
    rw [zeroMat, List.length_replicate]
  constructor
  · intro p hp
    obtain ⟨a, b, ha, hb, hab, hpe, _⟩ :=
      mem_mkState_live n (zeroMat names.length) p (fun row hr => hsq row hr) hp
    exact ⟨a, b, by rwa [hzlen] at ha, by rwa [hzlen] at hb, hab, hpe⟩
  · intro a b ha hb hab
    have hcount := count_mkState_live n (zeroMat names.length) a b
      (by rwa [hzlen]) (by rwa [hzlen]) (fun row hr => hsq row hr)
    rw [Tracker.mkState]
    dsimp only
    rw [hcount, if_neg hab,
      matEntry_zeroMat names.length a b ha hb]
    rw [show n - 0 = n from by ring]
    exact_mod_cast Int.toNat_of_nonneg (le_of_lt hn)

theorem evaluator_init_ok (names : List Int) (n : Int) (md : Nat) (s₀ : EvalState)
    (h : Evaluator.init names n md = Except.ok s₀) :
    s₀ = Evaluator.mkState names n md := by
  rw [Evaluator.init, Tracker.init, if_pos rfl] at h
  by_cases hcap : matSum (residMat n (setDiag n (zeroMat names.length))) < CAP
  · rw [if_pos hcap] at h
    by_cases hemp : names.isEmpty
    · rw [if_pos hemp] at h
      exact absurd h (by simp [Except.map])
    · rw [if_neg hemp] at h
      simp only [Except.map] at h
      have := Except.ok.inj h
      rw [← this]
      rfl
  · rw [if_neg hcap] at h
    exact absurd h (by simp [Except.map])

theorem mkState_Inv (names : List Int) (n : Int) (md : Nat) (hn : 0 < n)
    (hwf : WfPool (Evaluator.mkState names n md).tracker.live names.length n) :
    Inv (Evaluator.mkState names n md).tracker.live names n md
      (Evaluator.mkState names n md) [] := by
  have hnotomb : ∀ p ∈ (Evaluator.mkState names n md).tracker.live, p ≠ TOMB := by
    intro p hp
    obtain ⟨a, b, _, _, _, hpe⟩ := hwf.1 p hp
    rw [hpe]
    exact natPair_ne_TOMB a b
  refine ⟨rfl, rfl, rfl, Rel_refl _, ?_⟩
  intro a b ha hb
  constructor
  · intro _
    exact ⟨rfl, rfl⟩
  · intro hab
    refine Or.inl ⟨rfl, le_refl 0, le_refl 0, ?_, ?_⟩
    · rw [termCount_self _ _ hnotomb]
      rfl
    · rw [termCount_self _ _ hnotomb]
      exact_mod_cast hn

theorem finished_iff_all_tomb (t : Tracker) :
    t.finished = true ↔ ∀ p ∈ t.live, p = TOMB := by
  rw [Tracker.finished, List.all_eq_true]
  constructor
  · intro h p hp
    exact beq_iff_eq.mp (h p hp)
  · intro h p hp
    exact beq_iff_eq.mpr (h p hp)

/-- C1 (amended): starting from the default construction (`games=None`, so
every off-diagonal residual equals `n_envs_per > 0`), a valid run — every game
ends with exactly one seat receiving reward `1` — that reaches
`finished() = true` emits exactly one finalized record per off-diagonal
matchup cell, and each such record's completed-games count equals
`n_envs_per`. -/
theorem evaluator_emits_each_offdiag_once
    (names : List Int) (n : Int) (md : Nat) (steps : List StepIn) (s₀ : EvalState)
    (hinit : Evaluator.init names n md = Except.ok s₀)
    (hnd : names.Nodup) (hn : 0 < n)
    (hrun : ValidRun s₀ steps)
    (hfin : (Evaluator.run s₀ steps).1.tracker.finished = true) :
    ∀ a b : Nat, a < names.length → b < names.length → a ≠ b →
      RecCount names (Evaluator.run s₀ steps).2 a b = 1 ∧
      ∀ r ∈ (Evaluator.run s₀ steps).2,
        r.names = (names.getD a 0, names.getD b 0) → r.games = n := by
  have hs₀ := evaluator_init_ok names n md s₀ hinit
  subst hs₀
  have hwf : WfPool (Evaluator.mkState names n md).tracker.live names.length n :=
    wf_pool_mkState names n md hn
  have hInv0 := mkState_Inv names n md hn hwf
  have hfinal := run_Inv (Evaluator.mkState names n md).tracker.live names n md hwf hnd hn
    steps (Evaluator.mkState names n md) [] hrun hInv0
  intro a b ha hb hab
  obtain ⟨_, _, _, hrelf, hcellf⟩ := hfinal
  have hq := natPair_ne_TOMB b a
  have halltomb :=
    (finished_iff_all_tomb (Evaluator.run (Evaluator.mkState names n md) steps).1.tracker).mp hfin
  have hlive0 : (Evaluator.run (Evaluator.mkState names n md) steps).1.tracker.live.count
      ((b : Int), (a : Int)) = 0 :=
    count_eq_zero_of_all_tomb _ _ hq halltomb
  have hsplit := count_eq_live_add_term ((b : Int), (a : Int)) hq hrelf
  have hcnt := hwf.2 b a hb ha (fun h => hab h.symm)
  rcases (hcellf a b ha hb).2 hab with ⟨_, _, _, _, hT⟩ | ⟨hR1, hg, _, _⟩
  · exfalso
    omega
  · rw [List.nil_append] at hR1 hg
    exact ⟨hR1, hg⟩

/-- Witness for C1: a two-agent run with target `1` per matchup, each game won
by seat 0, reaching completion; the theorem applies and yields exactly one
record per off-diagonal cell. -/
theorem evaluator_emits_each_offdiag_once_witness :
    Evaluator.init [0, 1] 1 (32 * 1024)
      = Except.ok (Evaluator.mkState [0, 1] 1 (32 * 1024)) ∧
    ([0, 1] : List Int).Nodup ∧ (0 : Int) < 1 ∧
    ValidRun (Evaluator.mkState [0, 1] 1 (32 * 1024))
      [([0, 0], [(true, (1, 0))]), ([0, 0], [(true, (1, 0))])] ∧
    (Evaluator.run (Evaluator.mkState [0, 1] 1 (32 * 1024))
      [([0, 0], [(true, (1, 0))]), ([0, 0], [(true, (1, 0))])]).1.tracker.finished = true ∧
    (∀ a b : Nat, a < ([0, 1] : List Int).length → b < ([0, 1] : List Int).length → a ≠ b →
      RecCount [0, 1] (Evaluator.run (Evaluator.mkState [0, 1] 1 (32 * 1024))
        [([0, 0], [(true, (1, 0))]), ([0, 0], [(true, (1, 0))])]).2 a b = 1 ∧
      ∀ r ∈ (Evaluator.run (Evaluator.mkState [0, 1] 1 (32 * 1024))
        [([0, 0], [(true, (1, 0))]), ([0, 0], [(true, (1, 0))])]).2,
        r.names = (([0, 1] : List Int).getD a 0, ([0, 1] : List Int).getD b 0) →
          r.games = 1) :=
  ⟨rfl, by decide, by decide, by decide, by decide,
    evaluator_emits_each_offdiag_once [0, 1] 1 (32 * 1024)
      [([0, 0], [(true, (1, 0))]), ([0, 0], [(true, (1, 0))])]
      (Evaluator.mkState [0, 1] 1 (32 * 1024)) rfl (by decide) (by decide)
      (by decide) (by decide)⟩

/-- Counterexample for C1 as stated: with partial initial progress
(`G[0][1] = 1`, `G[1][0] = 1`, target `2`), both off-diagonal pairs have
positive residual `1`; a valid run to completion emits no record at all,
because each accumulator can only ever total the residual, which is below the
target. -/
theorem evaluator_partial_residual_never_emitted :
    ValidRun (Evaluator.mkStateWith [0, 1] [[0, 1], [1, 0]] 2 (32 * 1024))
      [([0, 0], [(true, (1, 0))]), ([0, 0], [(true, (1, 0))])] ∧
    (Evaluator.run (Evaluator.mkStateWith [0, 1] [[0, 1], [1, 0]] 2 (32 * 1024))
      [([0, 0], [(true, (1, 0))]), ([0, 0], [(true, (1, 0))])]).1.tracker.finished = true ∧
    0 < 2 - matEntry [[0, 1], [1, 0]] 0 1 ∧
    0 < 2 - matEntry [[0, 1], [1, 0]] 1 0 ∧
    (Evaluator.run (Evaluator.mkStateWith [0, 1] [[0, 1], [1, 0]] 2 (32 * 1024))
      [([0, 0], [(true, (1, 0))]), ([0, 0], [(true, (1, 0))])]).2 = [] := by
  refine ⟨by decide, by decide, by decide, by decide, by decide⟩

/-! ## Suggest: mask and selection claims -/

/-- C2: the dispatch mask returned by `suggest` has at most `max_dispatch` set
bits, and every set bit marks a slot that is still live and whose current
due-seat owner is the suggested agent ordinal — the ordinal whose name
`suggest` returns. -/
theorem suggest_mask_live_and_owned (t : Tracker) (seats : List Int) :
    (t.suggest seats).1 = t.names.getD (t.suggestion seats) 0 ∧
    (t.suggest seats).2.1 = t.mask seats ∧
    (t.mask seats).count true ≤ t.max_dispatch ∧
    ∀ k : Nat, (t.mask seats).getD k false = true →
      t.live.getD k TOMB ≠ TOMB ∧
      dueOwner (t.live.getD k TOMB) (seats.getD k 0) = (t.suggestion seats : Int) := by
  refine ⟨rfl, rfl, ?_, ?_⟩
  · rw [count_mask]
    have h1 : min ((t.baseMask seats).count true) (t.max_dispatch - 1)
        ≤ t.max_dispatch - 1 := min_le_right _ _
    omega
  · intro k hk
    obtain ⟨_, _, h3, h4⟩ := mask_bit_facts t seats k hk
    exact ⟨h3, h4⟩

/-- Witness for C2 at a concrete tracker and seats vector. -/
theorem suggest_mask_live_and_owned_witness :
    ((Tracker.mkState 1 [0, 1] (zeroMat 2) (32 * 1024)).suggest [0, 0]).1
      = ([0, 1] : List Int).getD
          ((Tracker.mkState 1 [0, 1] (zeroMat 2) (32 * 1024)).suggestion [0, 0]) 0 ∧
    ((Tracker.mkState 1 [0, 1] (zeroMat 2) (32 * 1024)).mask [0, 0]).count true
      ≤ (Tracker.mkState 1 [0, 1] (zeroMat 2) (32 * 1024)).max_dispatch ∧
    (∀ k : Nat,
      ((Tracker.mkState 1 [0, 1] (zeroMat 2) (32 * 1024)).mask [0, 0]).getD k false = true →
      (Tracker.mkState 1 [0, 1] (zeroMat 2) (32 * 1024)).live.getD k TOMB ≠ TOMB ∧
      dueOwner ((Tracker.mkState 1 [0, 1] (zeroMat 2) (32 * 1024)).live.getD k TOMB)
          (([0, 0] : List Int).getD k 0)
        = ((Tracker.mkState 1 [0, 1] (zeroMat 2) (32 * 1024)).suggestion [0, 0] : Int)) := by
  obtain ⟨h1, _, h3, h4⟩ :=
    suggest_mask_live_and_owned (Tracker.mkState 1 [0, 1] (zeroMat 2) (32 * 1024)) [0, 0]
  exact ⟨h1, h3, h4⟩

/-- C3: `suggest` selects an agent ordinal whose due-count (histogram of live
slots' due-seat owners) is maximal, and the selection is a pure function of
the tracker state and the seats vector. -/
theorem suggest_picks_max_due (t : Tracker) (seats : List Int)
    (hlive : ∃ p ∈ t.live, p ≠ TOMB) :
    (∀ a : Nat, a < t.names.length →
      (t.totals seats).getD a 0 ≤ (t.totals seats).getD (t.suggestion seats) 0) ∧
    (∀ (t' : Tracker) (seats' : List Int), t' = t → seats' = seats →
      t'.suggest seats' = t.suggest seats) := by
  constructor
  · intro a ha
    have hlen : (t.totals seats).length = t.names.length := by
      simp only [Tracker.totals, List.length_map, List.length_range]
    exact argmaxIdx_ge (t.totals seats) a (by rwa [hlen])
  · intro t' seats' h1 h2
    rw [h1, h2]

/-- Witness for C3: a fresh two-agent tracker has a live slot and the theorem
applies. -/
theorem suggest_picks_max_due_witness :
    (∃ p ∈ (Tracker.mkState 1 [0, 1] (zeroMat 2) (32 * 1024)).live, p ≠ TOMB) ∧
    (∀ a : Nat, a < (Tracker.mkState 1 [0, 1] (zeroMat 2) (32 * 1024)).names.length →
      ((Tracker.mkState 1 [0, 1] (zeroMat 2) (32 * 1024)).totals [0, 0]).getD a 0
        ≤ ((Tracker.mkState 1 [0, 1] (zeroMat 2) (32 * 1024)).totals [0, 0]).getD
            ((Tracker.mkState 1 [0, 1] (zeroMat 2) (32 * 1024)).suggestion [0, 0]) 0) :=
  ⟨by decide,
    (suggest_picks_max_due (Tracker.mkState 1 [0, 1] (zeroMat 2) (32 * 1024)) [0, 0]
      (by decide)).1⟩

/-- C9: the inclusive cumulative-count cutoff keeps strictly fewer than
`max_dispatch` bits; when at least `max_dispatch` live slots are due for the
selected agent, exactly `max_dispatch - 1` lowest-index slots are kept, and
every kept bit was due (a set bit of the untruncated mask). -/
theorem mask_strictly_below_cap (t : Tracker) (seats : List Int)
    (hmd : 0 < t.max_dispatch) :
    (t.mask seats).count true < t.max_dispatch ∧
    (t.max_dispatch ≤ (t.baseMask seats).count true →
      (t.mask seats).count true = t.max_dispatch - 1) ∧
    (∀ k : Nat, (t.mask seats).getD k false = true →
      (t.baseMask seats).getD k false = true) := by
  refine ⟨?_, ?_, ?_⟩
  · rw [count_mask]
    omega
  · intro hge
    rw [count_mask]
    omega
  · intro k hk
    exact truncMaskFrom_getD_imp _ _ 0 k hk

/-- Witness for C9: target `5` per matchup over two agents with
`max_dispatch = 2`; five slots are due for agent `0`, and exactly one
(`max_dispatch - 1`) is dispatched. -/
theorem mask_strictly_below_cap_witness :
    (0 < (Tracker.mkState 5 [0, 1] (zeroMat 2) 2).max_dispatch) ∧
    ((Tracker.mkState 5 [0, 1] (zeroMat 2) 2).max_dispatch
      ≤ ((Tracker.mkState 5 [0, 1] (zeroMat 2) 2).baseMask
          [0, 0, 0, 0, 0, 0, 0, 0, 0, 0]).count true) ∧
    ((Tracker.mkState 5 [0, 1] (zeroMat 2) 2).mask
        [0, 0, 0, 0, 0, 0, 0, 0, 0, 0]).count true
      < (Tracker.mkState 5 [0, 1] (zeroMat 2) 2).max_dispatch ∧
    ((Tracker.mkState 5 [0, 1] (zeroMat 2) 2).mask
        [0, 0, 0, 0, 0, 0, 0, 0, 0, 0]).count true
      = (Tracker.mkState 5 [0, 1] (zeroMat 2) 2).max_dispatch - 1 := by
  obtain ⟨h1, h2, _⟩ :=
    mask_strictly_below_cap (Tracker.mkState 5 [0, 1] (zeroMat 2) 2)
      [0, 0, 0, 0, 0, 0, 0, 0, 0, 0] (by decide)
  exact ⟨by decide, by decide, h1, h2 (by decide)⟩

/-! ## Construction claims -/

theorem tracker_init_ok (n : Int) (index columns : List Int)
    (values : List (List Int)) (md : Nat) (t : Tracker)
    (h : Tracker.init n index columns values md = Except.ok t) :
    index = columns ∧ t = Tracker.mkState n index values md := by
  rw [Tracker.init] at h
  by_cases hic : index = columns
  · rw [if_pos hic] at h
    by_cases hcap : matSum (residMat n (setDiag n values)) < CAP
    · rw [if_pos hcap] at h
      by_cases hemp : index.isEmpty
      · rw [if_pos hemp] at h
        exact absurd h (by simp)
      · rw [if_neg hemp] at h
        exact ⟨hic, (Except.ok.inj h).symm⟩
    · rw [if_neg hcap] at h
      exact absurd h (by simp)
  · rw [if_neg hic] at h
    exact absurd h (by simp)

/-- C5: on any successful construction with a square progress matrix bounded
by the target, the slot pool holds exactly the off-diagonal residual total;
each in-range pair owns `0` (diagonal) or `n − G[a][b]` slots; and every slot
is bound to an in-range off-diagonal pair with strictly positive residual. -/
theorem tracker_init_pool (n : Int) (index columns : List Int)
    (values : List (List Int)) (md : Nat) (t : Tracker)
    (hinit : Tracker.init n index columns values md = Except.ok t)
    (hsq : values.length = index.length)
    (hrows : ∀ row ∈ values, row.length = index.length)
    (hbounds : ∀ i j : Nat, i < index.length → j < index.length →
      0 ≤ matEntry values i j ∧ matEntry values i j ≤ n) :
    t.live.length = offDiagResidSum n values ∧
    (∀ a b : Nat, a < index.length → b < index.length →
      (t.live.count ((a : Int), (b : Int)) : Int)
        = if a = b then 0 else n - matEntry values a b) ∧
    (∀ p ∈ t.live, ∃ a b : Nat, a < index.length ∧ b < index.length ∧ a ≠ b ∧
      p = ((a : Int), (b : Int)) ∧ 0 < n - matEntry values a b) := by
  obtain ⟨-, ht⟩ := tracker_init_ok n index columns values md t hinit
  subst ht
  have hsq' : ∀ row ∈ values, row.length = values.length := by
    intro row hr
    rw [hrows row hr, hsq]
  rw [Tracker.mkState]
  dsimp only
  refine ⟨length_mkState_live n values hsq', ?_, ?_⟩
  · intro a b ha hb
    rw [count_mkState_live n values a b (by rwa [hsq]) (by rwa [hsq]) hsq']
    by_cases hab : a = b
    · rw [if_pos hab, if_pos hab]
      rfl
    · rw [if_neg hab, if_neg hab]
      have hbd := hbounds a b ha hb
      rw [Int.toNat_of_nonneg (by omega)]
  · intro p hp
    obtain ⟨a, b, ha, hb, hab, hpe, hpos⟩ := mem_mkState_live n values p hsq' hp
    exact ⟨a, b, by rwa [hsq] at ha, by rwa [hsq] at hb, hab, hpe, hpos⟩

/-- Witness for C5 at a concrete two-agent zero-progress construction. -/
theorem tracker_init_pool_witness :
    Tracker.init 1 [0, 1] [0, 1] [[0, 0], [0, 0]] (32 * 1024)
      = Except.ok (Tracker.mkState 1 [0, 1] [[0, 0], [0, 0]] (32 * 1024)) ∧
    (Tracker.mkState 1 [0, 1] [[0, 0], [0, 0]] (32 * 1024)).live.length
      = offDiagResidSum 1 [[0, 0], [0, 0]] ∧
    (∀ a b : Nat, a < ([0, 1] : List Int).length → b < ([0, 1] : List Int).length →
      ((Tracker.mkState 1 [0, 1] [[0, 0], [0, 0]] (32 * 1024)).live.count
          ((a : Int), (b : Int)) : Int)
        = if a = b then 0 else 1 - matEntry [[0, 0], [0, 0]] a b) := by
  obtain ⟨h1, h2, -⟩ :=
    tracker_init_pool 1 [0, 1] [0, 1] [[0, 0], [0, 0]] (32 * 1024)
      (Tracker.mkState 1 [0, 1] [[0, 0], [0, 0]] (32 * 1024)) rfl (by decide)
      (by decide)
      (by
        intro i j hi hj
        have hi2 : i < 2 := by simpa using hi
        have hj2 : j < 2 := by simpa using hj
        interval_cases i <;> interval_cases j <;> exact ⟨by decide, by decide⟩)
  exact ⟨rfl, h1, h2⟩

theorem zipWith_tomb_noop :
    ∀ (l : List Pair) (mk : List Bool), mk.length = l.length →
      (∀ k, mk.getD k false = true → l.getD k TOMB = TOMB) →
      l.zipWith (fun p b => if b then TOMB else p) mk = l
  | [], [], _, _ => by simp
  | [], _ :: _, h, _ => absurd h (by simp)
  | _ :: _, [], h, _ => absurd h (by simp)
  | p :: l, b :: mk, hlen, h => by
    rw [List.zipWith_cons_cons]
    have htail := zipWith_tomb_noop l mk (by simpa using hlen) (fun k hk => by
      have := h (k + 1) (by simpa using hk)
      simpa using this)
    rw [htail]
    cases b
    · rw [if_neg (by simp)]
    · have := h 0 rfl
      rw [List.getD_cons_zero] at this
      rw [if_pos rfl, this]

/-- C6: `update` tombstones exactly the slots whose mask bit and rank-aligned
terminal flag are both set, returns their (pre-update) bindings, leaves every
other slot and every other tracker field unchanged, and re-applying it to
already-terminated slots leaves the pool identical. -/
theorem tracker_update_spec (t : Tracker) (terminal mask : List Bool)
    (hm : mask.length = t.live.length)
    (ht : terminal.length = mask.count true) :
    (t.update terminal mask).1 = maskSelect t.live (scatterMask mask terminal) ∧
    (t.update terminal mask).2.live.length = t.live.length ∧
    (∀ k : Nat, k < t.live.length →
      ((scatterMask mask terminal).getD k false = true →
        (t.update terminal mask).2.live.getD k TOMB = TOMB) ∧
      ((scatterMask mask terminal).getD k false = false →
        (t.update terminal mask).2.live.getD k TOMB = t.live.getD k TOMB)) ∧
    ((t.update terminal mask).2.n_envs_per = t.n_envs_per ∧
      (t.update terminal mask).2.names = t.names ∧
      (t.update terminal mask).2.max_dispatch = t.max_dispatch ∧
      (t.update terminal mask).2.games = t.games ∧
      (t.update terminal mask).2.init_games = t.init_games) ∧
    ((∀ k : Nat, (scatterMask mask terminal).getD k false = true →
        t.live.getD k TOMB = TOMB) →
      (t.update terminal mask).2.live = t.live) := by
  have hslen : (scatterMask mask terminal).length = t.live.length := by
    rw [length_scatterMask, hm]
  refine ⟨rfl, ?_, ?_, ⟨rfl, rfl, rfl, rfl, rfl⟩, ?_⟩
  · rw [show (t.update terminal mask).2.live
        = t.live.zipWith (fun p b => if b then TOMB else p)
            (scatterMask mask terminal) from rfl]
    rw [List.length_zipWith, hslen, Nat.min_self]
  · intro k hk
    rw [show (t.update terminal mask).2.live
        = t.live.zipWith (fun p b => if b then TOMB else p)
            (scatterMask mask terminal) from rfl]
    rw [getD_zipWith _ TOMB false TOMB t.live (scatterMask mask terminal) k hk
      (by rwa [hslen])]
    constructor
    · intro hbit
      rw [hbit, if_pos rfl]
    · intro hbit
      rw [hbit, if_neg (by simp)]
  · intro hidem
    rw [show (t.update terminal mask).2.live
        = t.live.zipWith (fun p b => if b then TOMB else p)
            (scatterMask mask terminal) from rfl]
    exact zipWith_tomb_noop t.live (scatterMask mask terminal) hslen hidem

/-- Witness for C6 at a concrete state: terminate slot 0, then re-apply the
same update and observe the pool is unchanged. -/
theorem tracker_update_spec_witness :
    ([true, false] : List Bool).length
      = (Tracker.mkState 1 [0, 1] (zeroMat 2) (32 * 1024)).live.length ∧
    ([true] : List Bool).length = ([true, false] : List Bool).count true ∧
    ((Tracker.mkState 1 [0, 1] (zeroMat 2) (32 * 1024)).update [true] [true, false]).1
      = maskSelect (Tracker.mkState 1 [0, 1] (zeroMat 2) (32 * 1024)).live
          (scatterMask [true, false] [true]) ∧
    ((Tracker.mkState 1 [0, 1] (zeroMat 2) (32 * 1024)).update
        [true] [true, false]).2.live.length
      = (Tracker.mkState 1 [0, 1] (zeroMat 2) (32 * 1024)).live.length := by
  obtain ⟨h1, h2, -, -, -⟩ :=
    tracker_update_spec (Tracker.mkState 1 [0, 1] (zeroMat 2) (32 * 1024))
      [true] [true, false] (by decide) (by decide)
  exact ⟨by decide, by decide, h1, h2⟩

/-- C7 (amended): construction fails with the index-mismatch error when the
matrix index list differs from the column list, with the capacity error when
the residual total reaches the `100*1024*1024` ceiling, and — the amendment —
with a reduction error on an empty identity list, where `residual.max()`
raises; for nonempty well-formed input it succeeds. -/
theorem tracker_init_cases (n : Int) (index columns : List Int)
    (values : List (List Int)) (md : Nat) :
    (index ≠ columns →
      Tracker.init n index columns values md = Except.error ConfigErr.indexMismatch) ∧
    (index = columns → ¬ matSum (residMat n (setDiag n values)) < CAP →
      Tracker.init n index columns values md = Except.error ConfigErr.capacity) ∧
    (index = columns → matSum (residMat n (setDiag n values)) < CAP → index = [] →
      Tracker.init n index columns values md = Except.error ConfigErr.emptyReduce) ∧
    (index = columns → matSum (residMat n (setDiag n values)) < CAP → index ≠ [] →
      Tracker.init n index columns values md
        = Except.ok (Tracker.mkState n index values md)) := by
  refine ⟨?_, ?_, ?_, ?_⟩
  · intro hic
    rw [Tracker.init, if_neg hic]
  · intro hic hcap
    rw [Tracker.init, if_pos hic, if_neg hcap]
  · intro hic hcap hemp
    rw [Tracker.init, if_pos hic, if_pos hcap,
      if_pos (List.isEmpty_iff.mpr hemp)]
  · intro hic hcap hemp
    rw [Tracker.init, if_pos hic, if_pos hcap,
      if_neg (fun hc => hemp (List.isEmpty_iff.mp hc))]

/-- Counterexample for C7 as stated: the empty identity list has matching
index and column sets and a pool size far below the ceiling, yet construction
does not succeed — the empty-tensor reduction fails instead. -/
theorem tracker_init_empty_fails :
    (([] : List Int) = ([] : List Int)) ∧
    matSum (residMat 4 (setDiag 4 ([] : List (List Int)))) < CAP ∧
    Tracker.init 4 ([] : List Int) [] [] (32 * 1024)
      = Except.error ConfigErr.emptyReduce :=
  ⟨rfl, by decide, rfl⟩

/-- Witness for C7 at concrete inputs: each of the four construction outcomes
realized. -/
theorem tracker_init_cases_witness :
    Tracker.init 1 [0, 1] [0, 1] [[0, 0], [0, 0]] (32 * 1024)
      = Except.ok (Tracker.mkState 1 [0, 1] [[0, 0], [0, 0]] (32 * 1024)) ∧
    Tracker.init 1 [0, 1] [1, 0] [[0, 0], [0, 0]] (32 * 1024)
      = Except.error ConfigErr.indexMismatch := by
  refine ⟨(tracker_init_cases 1 [0, 1] [0, 1] [[0, 0], [0, 0]] (32 * 1024)).2.2.2
      rfl (by decide) (by decide),
    (tracker_init_cases 1 [0, 1] [1, 0] [[0, 0], [0, 0]] (32 * 1024)).1 (by decide)⟩

/-- C8: a successful construction whose off-diagonal progress entries all
already equal the target has an empty slot pool and reports `finished()`
immediately; in general `finished()` holds exactly when every slot is
tombstoned. -/
theorem tracker_finished_spec (n : Int) (index columns : List Int)
    (values : List (List Int)) (md : Nat) (t : Tracker)
    (hinit : Tracker.init n index columns values md = Except.ok t)
    (hsq : values.length = index.length)
    (hrows : ∀ row ∈ values, row.length = index.length)
    (hall : ∀ i j : Nat, i < index.length → j < index.length → i ≠ j →
      matEntry values i j = n) :
    (t.live = [] ∧ t.finished = true) ∧
    ∀ t' : Tracker, t'.finished = true ↔ ∀ p ∈ t'.live, p = TOMB := by
  obtain ⟨-, ht⟩ := tracker_init_ok n index columns values md t hinit
  subst ht
  have hsq' : ∀ row ∈ values, row.length = values.length := by
    intro row hr
    rw [hrows row hr, hsq]
  have hlen0 : (Tracker.mkState n index values md).live.length = 0 := by
    rw [Tracker.mkState]
    dsimp only
    rw [length_mkState_live n values hsq', offDiagResidSum]
    apply List.sum_eq_zero
    intro x hx
    obtain ⟨a, hamem, rfl⟩ := List.mem_map.mp hx
    apply List.sum_eq_zero
    intro y hy
    obtain ⟨b, hbmem, rfl⟩ := List.mem_map.mp hy
    by_cases hab : a = b
    · rw [if_pos hab]
    · rw [if_neg hab,
        hall a b (by rw [← hsq]; exact List.mem_range.mp hamem)
          (by rw [← hsq]; exact List.mem_range.mp hbmem) hab]
      simp
  have hnil : (Tracker.mkState n index values md).live = [] :=
    List.length_eq_zero.mp hlen0
  refine ⟨⟨hnil, ?_⟩, finished_iff_all_tomb⟩
  rw [Tracker.finished, hnil]
  rfl

/-- Witness for C8: two agents with every off-diagonal progress entry at the
target `3`: construction yields an empty, immediately-finished pool. -/
theorem tracker_finished_spec_witness :
    Tracker.init 3 [0, 1] [0, 1] [[0, 3], [3, 0]] (32 * 1024)
      = Except.ok (Tracker.mkState 3 [0, 1] [[0, 3], [3, 0]] (32 * 1024)) ∧
    (Tracker.mkState 3 [0, 1] [[0, 3], [3, 0]] (32 * 1024)).live = [] ∧
    (Tracker.mkState 3 [0, 1] [[0, 3], [3, 0]] (32 * 1024)).finished = true := by
  obtain ⟨⟨h1, h2⟩, -⟩ :=
    tracker_finished_spec 3 [0, 1] [0, 1] [[0, 3], [3, 0]] (32 * 1024)
      (Tracker.mkState 3 [0, 1] [[0, 3], [3, 0]] (32 * 1024)) rfl (by decide)
      (by decide)
      (by
        intro i j hi hj hij
        have hi2 : i < 2 := by simpa using hi
        have hj2 : j < 2 := by simpa using hj
        interval_cases i <;> interval_cases j <;> first
          | exact absurd rfl hij
          | decide)
  exact ⟨rfl, h1, h2⟩

/-- C4 (code behavior at the failing input): after one slot of a two-slot
pool terminates, `report()` still returns completed `0` — the progress matrix
is never incremented by `update` — and remaining `2`, not the claimed
`(1, 1)`. -/
theorem tracker_report_after_termination :
    (Tracker.mkState 1 [0, 1] (zeroMat 2) (32 * 1024)).live = [(0, 1), (1, 0)] ∧
    ((Tracker.mkState 1 [0, 1] (zeroMat 2) (32 * 1024)).update
        [true] [true, false]).1 = [(0, 1)] ∧
    ((Tracker.mkState 1 [0, 1] (zeroMat 2) (32 * 1024)).update
        [true] [true, false]).2.report = (0, 2) ∧
    ((Tracker.mkState 1 [0, 1] (zeroMat 2) (32 * 1024)).update
        [true] [true, false]).2.report ≠ (1, 1) := by
  refine ⟨by decide, by decide, by decide, by decide⟩

/-! ## Weak (draw-admitting) run invariant -/

theorem step_InvW (l₀ : List Pair) (names : List Int) (n : Int) (md : Nat)
    (hwf : WfPool l₀ names.length n) (hnd : names.Nodup) (hn : 0 < n)
    (s : EvalState) (R : List Record) (hInv : InvW l₀ names n md s R)
    (seats : List Int) (trans : List Trans)
    (hs : seats.length = s.tracker.live.length)
    (hr : ∀ x ∈ trans, (x.1 = true → winContrib x.2 ≤ 1) ∧
      (x.1 = false → winContrib x.2 = 0)) :
    InvW l₀ names n md (Evaluator.step s seats trans).1
      (R ++ (Evaluator.step s seats trans).2) := by
  obtain ⟨hne, hnm, hmd, hrel, hcell⟩ := hInv
  have hmlen : (s.tracker.mask seats).length = s.tracker.live.length := by
    rw [length_mask, hs, Nat.min_self]
  have hmasklen :
      (scatterMask (s.tracker.mask seats) (trans.map (fun x => x.1))).length
        = s.tracker.live.length := by
    rw [length_scatterMask, hmlen]
  have hmaskbits : ∀ k,
      (scatterMask (s.tracker.mask seats) (trans.map (fun x => x.1))).getD k false = true →
      s.tracker.live.getD k TOMB ≠ TOMB := by
    intro k hk
    exact (mask_bit_facts s.tracker seats k (scatterMask_getD_imp _ _ k hk)).2.2.1
  have hzipr : ∀ x ∈ (maskSelect s.tracker.live (s.tracker.mask seats)).zip trans,
      (x.2.1 = true → winContrib x.2.2 ≤ 1) ∧ (x.2.1 = false → winContrib x.2.2 = 0) := by
    intro x hx
    exact hr x.2 (List.of_mem_zip hx).2
  have hlistmap :
      (maskSelect s.tracker.live (s.tracker.mask seats)).zip (trans.map (fun x => x.2))
        = ((maskSelect s.tracker.live (s.tracker.mask seats)).zip trans).map
            (Prod.map id (fun tr => tr.2)) :=
    List.zip_map_right _ _ _
  refine ⟨hne, hnm, hmd, ?_, ?_⟩
  · rw [step_tracker_live]
    exact Rel_update _ hrel hmasklen
  · intro a b ha hb
    rw [step_wins, step_tracker_live, step_recs, hlistmap, hne, hnm]
    have hq := natPair_ne_TOMB b a
    have hNdef := countP_liveB_hit (a : Int) (b : Int) s.tracker.live
      (s.tracker.mask seats) trans hmlen
    have hterm := termCount_update ((b : Int), (a : Int)) hq
      (scatterMask (s.tracker.mask seats) (trans.map (fun x => x.1))) hrel
      hmasklen hmaskbits
    have hNle := countP_zip_le_count ((b : Int), (a : Int)) s.tracker.live
      (scatterMask (s.tracker.mask seats) (trans.map (fun x => x.1)))
    have hcontrib := cellContrib_map_le (a : Int) (b : Int)
      ((maskSelect s.tracker.live (s.tracker.mask seats)).zip trans) hzipr
    have hW1 := addWins_apply
      (((maskSelect s.tracker.live (s.tracker.mask seats)).zip trans).map
        (Prod.map id (fun tr => tr.2))) s.wins (a : Int) (b : Int)
    have hsplit := count_eq_live_add_term ((b : Int), (a : Int)) hq hrel
    have hnonneg := cellContrib_nonneg (a : Int) (b : Int)
      (((maskSelect s.tracker.live (s.tracker.mask seats)).zip trans).map
        (Prod.map id (fun tr => tr.2)))
    have hW1f : (addWins s.wins
        (((maskSelect s.tracker.live (s.tracker.mask seats)).zip trans).map
          (Prod.map id (fun tr => tr.2))) (a : Int) (b : Int)).1
        = (s.wins (a : Int) (b : Int)).1
          + (cellContrib (a : Int) (b : Int)
              (((maskSelect s.tracker.live (s.tracker.mask seats)).zip trans).map
                (Prod.map id (fun tr => tr.2)))).1 := congrArg Prod.fst hW1
    have hW1s : (addWins s.wins
        (((maskSelect s.tracker.live (s.tracker.mask seats)).zip trans).map
          (Prod.map id (fun tr => tr.2))) (a : Int) (b : Int)).2
        = (s.wins (a : Int) (b : Int)).2
          + (cellContrib (a : Int) (b : Int)
              (((maskSelect s.tracker.live (s.tracker.mask seats)).zip trans).map
                (Prod.map id (fun tr => tr.2)))).2 := congrArg Prod.snd hW1
    rw [hNdef] at hcontrib
    constructor
    · -- diagonal cell
      intro hab
      subst hab
      obtain ⟨hw0, hR0⟩ := (hcell a a ha ha).1 rfl
      have hcount0 : l₀.count ((a : Int), (a : Int)) = 0 :=
        List.count_eq_zero.mpr (diag_not_in_pool l₀ names.length n hwf a)
      have hc1 : (cellContrib (a : Int) (a : Int)
          (((maskSelect s.tracker.live (s.tracker.mask seats)).zip trans).map
            (Prod.map id (fun tr => tr.2)))).1 = 0 := by
        omega
      have hc2 : (cellContrib (a : Int) (a : Int)
          (((maskSelect s.tracker.live (s.tracker.mask seats)).zip trans).map
            (Prod.map id (fun tr => tr.2)))).2 = 0 := by
        omega
      have hWv : addWins s.wins
          (((maskSelect s.tracker.live (s.tracker.mask seats)).zip trans).map
            (Prod.map id (fun tr => tr.2))) (a : Int) (a : Int) = (0, 0) := by
        rw [hW1, hc1, hc2, hw0]
        simp
      have hWf0 : (addWins s.wins
          (((maskSelect s.tracker.live (s.tracker.mask seats)).zip trans).map
            (Prod.map id (fun tr => tr.2))) (a : Int) (a : Int)).1 = 0 := by
        rw [hWv]
      have hWs0 : (addWins s.wins
          (((maskSelect s.tracker.live (s.tracker.mask seats)).zip trans).map
            (Prod.map id (fun tr => tr.2))) (a : Int) (a : Int)).2 = 0 := by
        rw [hWv]
      constructor
      · dsimp only
        rw [if_neg]
        · exact hWv
        · intro hcond
          have := hcond.2.2.2.2
          omega
      · rw [RecCount_append, hR0,
          recCount_recs names hnd _ _ n a a ha ha, if_neg (by omega)]
    · -- off-diagonal cell
      intro hab
      have hcnt : (l₀.count ((b : Int), (a : Int)) : Int) = n :=
        hwf.2 b a hb ha (fun h => hab h.symm)
      rcases (hcell a b ha hb).2 hab with ⟨hR0, hp1, hp2, hsum, hT⟩ | ⟨hR1, hg, hwv, hT⟩
      · -- not yet finalized: sum only bounded by terminations
        by_cases hfin : (addWins s.wins
            (((maskSelect s.tracker.live (s.tracker.mask seats)).zip trans).map
              (Prod.map id (fun tr => tr.2))) (a : Int) (b : Int)).1
          + (addWins s.wins
            (((maskSelect s.tracker.live (s.tracker.mask seats)).zip trans).map
              (Prod.map id (fun tr => tr.2))) (a : Int) (b : Int)).2 = n
        · refine Or.inr ⟨?_, ?_, ?_, ?_⟩
          · rw [RecCount_append, hR0, recCount_recs names hnd _ _ n a b ha hb,
              if_pos hfin]
          · intro r hrmem hrname
            rcases List.mem_append.mp hrmem with hrR | hrrecs
            · exact absurd hrname (RecCount_zero_no_match names R a b hR0 r hrR)
            · exact recs_games names _ _ names.length n r hrrecs
          · dsimp only
            rw [if_pos]
            refine ⟨Int.natCast_nonneg a, ?_, Int.natCast_nonneg b, ?_, hfin⟩
            · exact_mod_cast ha
            · exact_mod_cast hb
          · rw [hterm]
            push_cast
            omega
        · refine Or.inl ⟨?_, ?_, ?_, ?_, ?_⟩
          · rw [RecCount_append, hR0, recCount_recs names hnd _ _ n a b ha hb,
              if_neg hfin]
          · dsimp only
            rw [if_neg (fun hcond => hfin hcond.2.2.2.2)]
            rw [hW1f]
            omega
          · dsimp only
            rw [if_neg (fun hcond => hfin hcond.2.2.2.2)]
            rw [hW1s]
            omega
          · dsimp only
            rw [if_neg (fun hcond => hfin hcond.2.2.2.2)]
            rw [hterm]
            push_cast
            omega
          · rw [hterm]
            push_cast
            omega
      · -- already finalized: nothing changes
        have hc1 : (cellContrib (a : Int) (b : Int)
            (((maskSelect s.tracker.live (s.tracker.mask seats)).zip trans).map
              (Prod.map id (fun tr => tr.2)))).1 = 0 := by
          omega
        have hc2 : (cellContrib (a : Int) (b : Int)
            (((maskSelect s.tracker.live (s.tracker.mask seats)).zip trans).map
              (Prod.map id (fun tr => tr.2)))).2 = 0 := by
          omega
        have hWv : addWins s.wins
            (((maskSelect s.tracker.live (s.tracker.mask seats)).zip trans).map
              (Prod.map id (fun tr => tr.2))) (a : Int) (b : Int) = (-1, -1) := by
          rw [hW1, hc1, hc2, hwv]
          simp
        have hWf0 : (addWins s.wins
            (((maskSelect s.tracker.live (s.tracker.mask seats)).zip trans).map
              (Prod.map id (fun tr => tr.2))) (a : Int) (b : Int)).1 = -1 := by
          rw [hWv]
        have hWs0 : (addWins s.wins
            (((maskSelect s.tracker.live (s.tracker.mask seats)).zip trans).map
              (Prod.map id (fun tr => tr.2))) (a : Int) (b : Int)).2 = -1 := by
          rw [hWv]
        refine Or.inr ⟨?_, ?_, ?_, ?_⟩
        · rw [RecCount_append, hR1, recCount_recs names hnd _ _ n a b ha hb,
            if_neg (by omega)]
        · intro r hrmem hrname
          rcases List.mem_append.mp hrmem with hrR | hrrecs
          · exact hg r hrR hrname
          · exact recs_games names _ _ names.length n r hrrecs
        · dsimp only
          rw [if_neg]
          · exact hWv
          · intro hcond
            have hcc := hcond.2.2.2.2
            omega
        · rw [hterm]
          push_cast
          omega

theorem run_InvW (l₀ : List Pair) (names : List Int) (n : Int) (md : Nat)
    (hwf : WfPool l₀ names.length n) (hnd : names.Nodup) (hn : 0 < n) :
    ∀ (steps : List StepIn) (s : EvalState) (R : List Record),
      ValidRunW s steps → InvW l₀ names n md s R →
      InvW l₀ names n md (Evaluator.run s steps).1
        (R ++ (Evaluator.run s steps).2)
  | [], s, R, _, hInv => by
    rw [show Evaluator.run s [] = (s, []) from rfl]
    simpa using hInv
  | st :: rest, s, R, hvalid, hInv => by
    obtain ⟨hs, _, hrw, hrest⟩ := hvalid
    have hstep := step_InvW l₀ names n md hwf hnd hn s R hInv st.1 st.2 hs hrw
    have hih := run_InvW l₀ names n md hwf hnd hn rest
      (Evaluator.step s st.1 st.2).1
      (R ++ (Evaluator.step s st.1 st.2).2) hrest hstep
    rw [run_cons]
    dsimp only
    rw [← List.append_assoc]
    exact hih

theorem mkState_InvW (names : List Int) (n : Int) (md : Nat) (hn : 0 < n)
    (hwf : WfPool (Evaluator.mkState names n md).tracker.live names.length n) :
    InvW (Evaluator.mkState names n md).tracker.live names n md
      (Evaluator.mkState names n md) [] := by
  have hnotomb : ∀ p ∈ (Evaluator.mkState names n md).tracker.live, p ≠ TOMB := by
    intro p hp
    obtain ⟨a, b, _, _, _, hpe⟩ := hwf.1 p hp
    rw [hpe]
    exact natPair_ne_TOMB a b
  refine ⟨rfl, rfl, rfl, Rel_refl _, ?_⟩
  intro a b ha hb
  constructor
  · intro _
    exact ⟨rfl, rfl⟩
  · intro hab
    refine Or.inl ⟨rfl, le_refl 0, le_refl 0, ?_, ?_⟩
    · rw [termCount_self _ _ hnotomb]
      rfl
    · rw [termCount_self _ _ hnotomb]
      exact_mod_cast le_of_lt hn

theorem validW_append :
    ∀ (xs ys : List StepIn) (s : EvalState), ValidRunW s (xs ++ ys) →
      ValidRunW s xs ∧ ValidRunW (Evaluator.run s xs).1 ys
  | [], ys, s, h => by
    refine ⟨trivial, ?_⟩
    rw [show Evaluator.run s [] = (s, []) from rfl]
    exact h
  | st :: xs, ys, s, h => by
    obtain ⟨h1, h2, h3, hrest⟩ := h
    obtain ⟨hxs, hys⟩ := validW_append xs ys (Evaluator.step s st.1 st.2).1 hrest
    refine ⟨⟨h1, h2, h3, hxs⟩, ?_⟩
    rw [run_cons]
    exact hys

theorem run_records_games :
    ∀ (steps : List StepIn) (s : EvalState),
      ∀ r ∈ (Evaluator.run s steps).2,
        r.games = s.tracker.n_envs_per ∧ r.wins.1 + r.wins.2 = s.tracker.n_envs_per
  | [], s, r, hr => absurd hr (by
      rw [show Evaluator.run s [] = (s, []) from rfl]
      simp)
  | st :: rest, s, r, hr => by
    rw [run_cons] at hr
    dsimp only at hr
    rcases List.mem_append.mp hr with hstep | hrest
    · rw [step_recs] at hstep
      obtain ⟨x, hx, rfl⟩ := List.mem_map.mp hstep
      have hx' := (List.mem_filter.mp hx).2
      have hgames : (mkRecord s.tracker.names
          (addWins s.wins ((maskSelect s.tracker.live (s.tracker.mask st.1)).zip
            (st.2.map (fun x => x.2)))) (addMoves s.moves
              (maskSelect s.tracker.live (s.tracker.mask st.1))) x).games
          = s.tracker.n_envs_per := beq_iff_eq.mp hx'
      exact ⟨hgames, hgames⟩
    · have := run_records_games rest (Evaluator.step s st.1 st.2).1 r hrest
      rwa [step_tracker_n] at this

/-- After a draw is recorded for the binding feeding a cell, that cell's wins
total stays at least one short of its termination count, and the cell is never
finalized: preservation through one more valid (at-most-one-winner) tick. -/
theorem step_strict (l₀ : List Pair) (names : List Int) (n : Int) (md : Nat)
    (hwf : WfPool l₀ names.length n) (hnd : names.Nodup) (hn : 0 < n)
    (s : EvalState) (R : List Record) (hInv : InvW l₀ names n md s R)
    (a b : Nat) (ha : a < names.length) (hb : b < names.length) (hab : a ≠ b)
    (hstrict : StrictCell l₀ names s.wins s.tracker.live R a b)
    (seats : List Int) (trans : List Trans)
    (hs : seats.length = s.tracker.live.length)
    (hr : ∀ x ∈ trans, (x.1 = true → winContrib x.2 ≤ 1) ∧
      (x.1 = false → winContrib x.2 = 0)) :
    StrictCell l₀ names (Evaluator.step s seats trans).1.wins
      (Evaluator.step s seats trans).1.tracker.live
      (R ++ (Evaluator.step s seats trans).2) a b := by
  obtain ⟨hne, hnm, hmd, hrel, _⟩ := hInv
  obtain ⟨hR0, hp1, hp2, hsum⟩ := hstrict
  have hmlen : (s.tracker.mask seats).length = s.tracker.live.length := by
    rw [length_mask, hs, Nat.min_self]
  have hmasklen :
      (scatterMask (s.tracker.mask seats) (trans.map (fun x => x.1))).length
        = s.tracker.live.length := by
    rw [length_scatterMask, hmlen]
  have hmaskbits : ∀ k,
      (scatterMask (s.tracker.mask seats) (trans.map (fun x => x.1))).getD k false = true →
      s.tracker.live.getD k TOMB ≠ TOMB := by
    intro k hk
    exact (mask_bit_facts s.tracker seats k (scatterMask_getD_imp _ _ k hk)).2.2.1
  have hzipr : ∀ x ∈ (maskSelect s.tracker.live (s.tracker.mask seats)).zip trans,
      (x.2.1 = true → winContrib x.2.2 ≤ 1) ∧ (x.2.1 = false → winContrib x.2.2 = 0) := by
    intro x hx
    exact hr x.2 (List.of_mem_zip hx).2
  have hlistmap :
      (maskSelect s.tracker.live (s.tracker.mask seats)).zip (trans.map (fun x => x.2))
        = ((maskSelect s.tracker.live (s.tracker.mask seats)).zip trans).map
            (Prod.map id (fun tr => tr.2)) :=
    List.zip_map_right _ _ _
  rw [step_wins, step_tracker_live, step_recs, hlistmap, hne, hnm]
  have hq := natPair_ne_TOMB b a
  have hNdef := countP_liveB_hit (a : Int) (b : Int) s.tracker.live
    (s.tracker.mask seats) trans hmlen
  have hterm := termCount_update ((b : Int), (a : Int)) hq
    (scatterMask (s.tracker.mask seats) (trans.map (fun x => x.1))) hrel
    hmasklen hmaskbits
  have hNle := countP_zip_le_count ((b : Int), (a : Int)) s.tracker.live
    (scatterMask (s.tracker.mask seats) (trans.map (fun x => x.1)))
  have hcontrib := cellContrib_map_le (a : Int) (b : Int)
    ((maskSelect s.tracker.live (s.tracker.mask seats)).zip trans) hzipr
  have hW1 := addWins_apply
    (((maskSelect s.tracker.live (s.tracker.mask seats)).zip trans).map
      (Prod.map id (fun tr => tr.2))) s.wins (a : Int) (b : Int)
  have hsplit := count_eq_live_add_term ((b : Int), (a : Int)) hq hrel
  have hnonneg := cellContrib_nonneg (a : Int) (b : Int)
    (((maskSelect s.tracker.live (s.tracker.mask seats)).zip trans).map
      (Prod.map id (fun tr => tr.2)))
  have hcnt : (l₀.count ((b : Int), (a : Int)) : Int) = n :=
    hwf.2 b a hb ha (fun h => hab h.symm)
  have hW1f : (addWins s.wins
      (((maskSelect s.tracker.live (s.tracker.mask seats)).zip trans).map
        (Prod.map id (fun tr => tr.2))) (a : Int) (b : Int)).1
      = (s.wins (a : Int) (b : Int)).1
        + (cellContrib (a : Int) (b : Int)
            (((maskSelect s.tracker.live (s.tracker.mask seats)).zip trans).map
              (Prod.map id (fun tr => tr.2)))).1 := congrArg Prod.fst hW1
  have hW1s : (addWins s.wins
      (((maskSelect s.tracker.live (s.tracker.mask seats)).zip trans).map
        (Prod.map id (fun tr => tr.2))) (a : Int) (b : Int)).2
      = (s.wins (a : Int) (b : Int)).2
        + (cellContrib (a : Int) (b : Int)
            (((maskSelect s.tracker.live (s.tracker.mask seats)).zip trans).map
              (Prod.map id (fun tr => tr.2)))).2 := congrArg Prod.snd hW1
  rw [hNdef] at hcontrib
  have hfin : ¬ ((addWins s.wins
      (((maskSelect s.tracker.live (s.tracker.mask seats)).zip trans).map
        (Prod.map id (fun tr => tr.2))) (a : Int) (b : Int)).1
    + (addWins s.wins
      (((maskSelect s.tracker.live (s.tracker.mask seats)).zip trans).map
        (Prod.map id (fun tr => tr.2))) (a : Int) (b : Int)).2 = n) := by
    push_cast at hcontrib ⊢
    omega
  refine ⟨?_, ?_, ?_, ?_⟩
  · rw [RecCount_append, hR0, recCount_recs names hnd _ _ n a b ha hb,
      if_neg hfin]
  · dsimp only
    rw [if_neg (fun hcond => hfin hcond.2.2.2.2)]
    rw [hW1f]
    omega
  · dsimp only
    rw [if_neg (fun hcond => hfin hcond.2.2.2.2)]
    rw [hW1s]
    omega
  · dsimp only
    rw [if_neg (fun hcond => hfin hcond.2.2.2.2)]
    rw [hterm]
    push_cast
    omega

theorem run_strict (l₀ : List Pair) (names : List Int) (n : Int) (md : Nat)
    (hwf : WfPool l₀ names.length n) (hnd : names.Nodup) (hn : 0 < n)
    (a b : Nat) (ha : a < names.length) (hb : b < names.length) (hab : a ≠ b) :
    ∀ (steps : List StepIn) (s : EvalState) (R : List Record),
      ValidRunW s steps → InvW l₀ names n md s R →
      StrictCell l₀ names s.wins s.tracker.live R a b →
      StrictCell l₀ names (Evaluator.run s steps).1.wins
        (Evaluator.run s steps).1.tracker.live
        (R ++ (Evaluator.run s steps).2) a b
  | [], s, R, _, _, hstrict => by
    rw [show Evaluator.run s [] = (s, []) from rfl]
    simpa using hstrict
  | st :: rest, s, R, hvalid, hInv, hstrict => by
    obtain ⟨hs, _, hrw, hrest⟩ := hvalid
    have hstep := step_InvW l₀ names n md hwf hnd hn s R hInv st.1 st.2 hs hrw
    have hstrict' := step_strict l₀ names n md hwf hnd hn s R hInv a b ha hb hab
      hstrict st.1 st.2 hs hrw
    have hih := run_strict l₀ names n md hwf hnd hn a b ha hb hab rest
      (Evaluator.step s st.1 st.2).1
      (R ++ (Evaluator.step s st.1 st.2).2) hrest hstep hstrict'
    rw [run_cons]
    dsimp only
    rw [← List.append_assoc]
    exact hih

/-- The tick in which a draw terminates a slot bound to `(b, a)` leaves stats
cell `(a, b)` unfinalized with its wins total strictly below its termination
count. -/
theorem step_strict_start (l₀ : List Pair) (names : List Int) (n : Int) (md : Nat)
    (hwf : WfPool l₀ names.length n) (hnd : names.Nodup) (hn : 0 < n)
    (s : EvalState) (R : List Record) (hInv : InvW l₀ names n md s R)
    (a b : Nat) (ha : a < names.length) (hb : b < names.length) (hab : a ≠ b)
    (seats : List Int) (trans : List Trans)
    (hs : seats.length = s.tracker.live.length)
    (hr : ∀ x ∈ trans, (x.1 = true → winContrib x.2 ≤ 1) ∧
      (x.1 = false → winContrib x.2 = 0))
    (hdraw : ∃ x ∈ (maskSelect s.tracker.live (s.tracker.mask seats)).zip trans,
      x.1 = ((b : Int), (a : Int)) ∧ x.2.1 = true ∧ winContrib x.2.2 = 0) :
    StrictCell l₀ names (Evaluator.step s seats trans).1.wins
      (Evaluator.step s seats trans).1.tracker.live
      (R ++ (Evaluator.step s seats trans).2) a b := by
  obtain ⟨hne, hnm, hmd, hrel, hcell⟩ := hInv
  have hmlen : (s.tracker.mask seats).length = s.tracker.live.length := by
    rw [length_mask, hs, Nat.min_self]
  have hmasklen :
      (scatterMask (s.tracker.mask seats) (trans.map (fun x => x.1))).length
        = s.tracker.live.length := by
    rw [length_scatterMask, hmlen]
  have hmaskbits : ∀ k,
      (scatterMask (s.tracker.mask seats) (trans.map (fun x => x.1))).getD k false = true →
      s.tracker.live.getD k TOMB ≠ TOMB := by
    intro k hk
    exact (mask_bit_facts s.tracker seats k (scatterMask_getD_imp _ _ k hk)).2.2.1
  have hzipr : ∀ x ∈ (maskSelect s.tracker.live (s.tracker.mask seats)).zip trans,
      (x.2.1 = true → winContrib x.2.2 ≤ 1) ∧ (x.2.1 = false → winContrib x.2.2 = 0) := by
    intro x hx
    exact hr x.2 (List.of_mem_zip hx).2
  have hlistmap :
      (maskSelect s.tracker.live (s.tracker.mask seats)).zip (trans.map (fun x => x.2))
        = ((maskSelect s.tracker.live (s.tracker.mask seats)).zip trans).map
            (Prod.map id (fun tr => tr.2)) :=
    List.zip_map_right _ _ _
  rw [step_wins, step_tracker_live, step_recs, hlistmap, hne, hnm]
  have hq := natPair_ne_TOMB b a
  have hNdef := countP_liveB_hit (a : Int) (b : Int) s.tracker.live
    (s.tracker.mask seats) trans hmlen
  have hterm := termCount_update ((b : Int), (a : Int)) hq
    (scatterMask (s.tracker.mask seats) (trans.map (fun x => x.1))) hrel
    hmasklen hmaskbits
  have hNle := countP_zip_le_count ((b : Int), (a : Int)) s.tracker.live
    (scatterMask (s.tracker.mask seats) (trans.map (fun x => x.1)))
  have hstrictc := cellContrib_map_strict (a : Int) (b : Int)
    ((maskSelect s.tracker.live (s.tracker.mask seats)).zip trans) hzipr hdraw
  have hW1 := addWins_apply
    (((maskSelect s.tracker.live (s.tracker.mask seats)).zip trans).map
      (Prod.map id (fun tr => tr.2))) s.wins (a : Int) (b : Int)
  have hsplit := count_eq_live_add_term ((b : Int), (a : Int)) hq hrel
  have hnonneg := cellContrib_nonneg (a : Int) (b : Int)
    (((maskSelect s.tracker.live (s.tracker.mask seats)).zip trans).map
      (Prod.map id (fun tr => tr.2)))
  have hcnt : (l₀.count ((b : Int), (a : Int)) : Int) = n :=
    hwf.2 b a hb ha (fun h => hab h.symm)
  have hW1f : (addWins s.wins
      (((maskSelect s.tracker.live (s.tracker.mask seats)).zip trans).map
        (Prod.map id (fun tr => tr.2))) (a : Int) (b : Int)).1
      = (s.wins (a : Int) (b : Int)).1
        + (cellContrib (a : Int) (b : Int)
            (((maskSelect s.tracker.live (s.tracker.mask seats)).zip trans).map
              (Prod.map id (fun tr => tr.2)))).1 := congrArg Prod.fst hW1
  have hW1s : (addWins s.wins
      (((maskSelect s.tracker.live (s.tracker.mask seats)).zip trans).map
        (Prod.map id (fun tr => tr.2))) (a : Int) (b : Int)).2
      = (s.wins (a : Int) (b : Int)).2
        + (cellContrib (a : Int) (b : Int)
            (((maskSelect s.tracker.live (s.tracker.mask seats)).zip trans).map
              (Prod.map id (fun tr => tr.2)))).2 := congrArg Prod.snd hW1
  rw [hNdef] at hstrictc
  -- the cell being drawn against cannot already be finalized
  have hlivepos : 0 < s.tracker.live.count ((b : Int), (a : Int)) := by
    obtain ⟨x, hx, hx1, _, _⟩ := hdraw
    have hx' : (x.1, x.2) ∈
        (maskSelect s.tracker.live (s.tracker.mask seats)).zip trans := by
      simpa using hx
    have := mem_maskSelect _ _ _ (List.of_mem_zip hx').1
    rw [hx1] at this
    exact List.count_pos_iff.mpr this
  rcases (hcell a b ha hb).2 hab with ⟨hR0, hp1, hp2, hsumle, hTle⟩ | ⟨_, _, _, hT⟩
  · have hfin : ¬ ((addWins s.wins
        (((maskSelect s.tracker.live (s.tracker.mask seats)).zip trans).map
          (Prod.map id (fun tr => tr.2))) (a : Int) (b : Int)).1
      + (addWins s.wins
        (((maskSelect s.tracker.live (s.tracker.mask seats)).zip trans).map
          (Prod.map id (fun tr => tr.2))) (a : Int) (b : Int)).2 = n) := by
      push_cast at hstrictc ⊢
      omega
    refine ⟨?_, ?_, ?_, ?_⟩
    · rw [RecCount_append, hR0, recCount_recs names hnd _ _ n a b ha hb,
        if_neg hfin]
    · dsimp only
      rw [if_neg (fun hcond => hfin hcond.2.2.2.2)]
      rw [hW1f]
      omega
    · dsimp only
      rw [if_neg (fun hcond => hfin hcond.2.2.2.2)]
      rw [hW1s]
      omega
    · dsimp only
      rw [if_neg (fun hcond => hfin hcond.2.2.2.2)]
      rw [hterm]
      push_cast
      push_cast at hstrictc
      omega
  · exfalso
    omega

/-- C10 (amended): a matchup is finalized only when its accumulated per-seat
win counts sum to exactly `n_envs_per` (every emitted record carries
`games = n_envs_per = wins total`).  Because the `scatter_add_` helper ravels
a binding `(i, j)` as `rows + width*cols`, a game's wins land in the
transposed stats cell `(j, i)`; hence a draw in a game whose slot is bound to
`(i, j)` leaves cell `(j, i)` — the record named
`(names[j], names[i])` — strictly below the target forever, and that record
is never emitted. -/
theorem record_target_and_draw_blocks_transposed
    (names : List Int) (n : Int) (md : Nat) (i j : Nat)
    (hi : i < names.length) (hj : j < names.length) (hij : i ≠ j)
    (s₀ : EvalState) (hinit : Evaluator.init names n md = Except.ok s₀)
    (hnd : names.Nodup) (hn : 0 < n)
    (pre post : List StepIn) (seats : List Int) (trans : List Trans)
    (hrun : ValidRunW s₀ (pre ++ (seats, trans) :: post))
    (hdraw : ∃ x ∈ (maskSelect (Evaluator.run s₀ pre).1.tracker.live
        ((Evaluator.run s₀ pre).1.tracker.mask seats)).zip trans,
      x.1 = ((i : Int), (j : Int)) ∧ x.2.1 = true ∧ winContrib x.2.2 = 0) :
    (∀ r ∈ (Evaluator.run s₀ (pre ++ (seats, trans) :: post)).2,
      r.games = n ∧ r.wins.1 + r.wins.2 = n) ∧
    RecCount names (Evaluator.run s₀ (pre ++ (seats, trans) :: post)).2 j i = 0 ∧
    ((Evaluator.run s₀ (pre ++ (seats, trans) :: post)).1.wins (j : Int) (i : Int)).1
      + ((Evaluator.run s₀ (pre ++ (seats, trans) :: post)).1.wins (j : Int) (i : Int)).2
      < n := by
  have hs₀ := evaluator_init_ok names n md s₀ hinit
  subst hs₀
  have hgames : ∀ r ∈ (Evaluator.run (Evaluator.mkState names n md)
      (pre ++ (seats, trans) :: post)).2, r.games = n ∧ r.wins.1 + r.wins.2 = n := by
    intro r hr
    exact run_records_games (pre ++ (seats, trans) :: post)
      (Evaluator.mkState names n md) r hr
  refine ⟨hgames, ?_⟩
  have hwf : WfPool (Evaluator.mkState names n md).tracker.live names.length n :=
    wf_pool_mkState names n md hn
  have hInv0 := mkState_InvW names n md hn hwf
  obtain ⟨hpre, hrest⟩ := validW_append pre ((seats, trans) :: post)
    (Evaluator.mkState names n md) hrun
  obtain ⟨hs, ht, hw, hpost⟩ := hrest
  have hInv1 := run_InvW (Evaluator.mkState names n md).tracker.live names n md
    hwf hnd hn pre (Evaluator.mkState names n md) [] hpre hInv0
  have hstrict2 := step_strict_start (Evaluator.mkState names n md).tracker.live
    names n md hwf hnd hn
    (Evaluator.run (Evaluator.mkState names n md) pre).1
    ([] ++ (Evaluator.run (Evaluator.mkState names n md) pre).2) hInv1
    j i hj hi (fun h => hij h.symm) seats trans hs hw hdraw
  have hInv2 := step_InvW (Evaluator.mkState names n md).tracker.live names n md
    hwf hnd hn (Evaluator.run (Evaluator.mkState names n md) pre).1
    ([] ++ (Evaluator.run (Evaluator.mkState names n md) pre).2) hInv1
    seats trans hs hw
  have hstrictF := run_strict (Evaluator.mkState names n md).tracker.live names n md
    hwf hnd hn j i hj hi (fun h => hij h.symm) post
    (Evaluator.step (Evaluator.run (Evaluator.mkState names n md) pre).1 seats trans).1
    (([] ++ (Evaluator.run (Evaluator.mkState names n md) pre).2)
      ++ (Evaluator.step (Evaluator.run (Evaluator.mkState names n md) pre).1
          seats trans).2) hpost hInv2 hstrict2
  have hInvF := run_InvW (Evaluator.mkState names n md).tracker.live names n md
    hwf hnd hn post
    (Evaluator.step (Evaluator.run (Evaluator.mkState names n md) pre).1 seats trans).1
    (([] ++ (Evaluator.run (Evaluator.mkState names n md) pre).2)
      ++ (Evaluator.step (Evaluator.run (Evaluator.mkState names n md) pre).1
          seats trans).2) hpost hInv2
  rw [run_append (Evaluator.mkState names n md) pre ((seats, trans) :: post),
    run_cons]
  dsimp only
  obtain ⟨hR0, hp1, hp2, hsum⟩ := hstrictF
  obtain ⟨_, _, _, hrelF, _⟩ := hInvF
  have hq := natPair_ne_TOMB i j
  have hsplitF := count_eq_live_add_term ((i : Int), (j : Int)) hq hrelF
  have hcnt : ((Evaluator.mkState names n md).tracker.live.count
      ((i : Int), (j : Int)) : Int) = n :=
    hwf.2 i j hi hj hij
  rw [List.nil_append, List.append_assoc] at hR0
  constructor
  · exact hR0
  · omega

/-- Witness for C10: two agents, target `1`; the slot bound to `(0, 1)` draws
at the first tick, so the transposed record `(names[1], names[0])` is never
emitted and its cell stays below the target. -/
theorem record_target_and_draw_blocks_transposed_witness :
    Evaluator.init [0, 1] 1 (32 * 1024)
      = Except.ok (Evaluator.mkState [0, 1] 1 (32 * 1024)) ∧
    ValidRunW (Evaluator.mkState [0, 1] 1 (32 * 1024))
      ([] ++ ([0, 0], [(true, ((0 : Int), (0 : Int)))])
        :: [([0, 0], [(true, ((1 : Int), (0 : Int)))])]) ∧
    (∃ x ∈ (maskSelect
        (Evaluator.run (Evaluator.mkState [0, 1] 1 (32 * 1024)) []).1.tracker.live
        ((Evaluator.run (Evaluator.mkState [0, 1] 1 (32 * 1024)) []).1.tracker.mask
          [0, 0])).zip [(true, ((0 : Int), (0 : Int)))],
      x.1 = ((0 : Int), (1 : Int)) ∧ x.2.1 = true ∧ winContrib x.2.2 = 0) ∧
    RecCount [0, 1] (Evaluator.run (Evaluator.mkState [0, 1] 1 (32 * 1024))
      ([] ++ ([0, 0], [(true, ((0 : Int), (0 : Int)))])
        :: [([0, 0], [(true, ((1 : Int), (0 : Int)))])])).2 1 0 = 0 ∧
    ((Evaluator.run (Evaluator.mkState [0, 1] 1 (32 * 1024))
      ([] ++ ([0, 0], [(true, ((0 : Int), (0 : Int)))])
        :: [([0, 0], [(true, ((1 : Int), (0 : Int)))])])).1.wins
          ((1 : Nat) : Int) ((0 : Nat) : Int)).1
      + ((Evaluator.run (Evaluator.mkState [0, 1] 1 (32 * 1024))
      ([] ++ ([0, 0], [(true, ((0 : Int), (0 : Int)))])
        :: [([0, 0], [(true, ((1 : Int), (0 : Int)))])])).1.wins
          ((1 : Nat) : Int) ((0 : Nat) : Int)).2 < 1 := by
  obtain ⟨-, h2, h3⟩ :=
    record_target_and_draw_blocks_transposed [0, 1] 1 (32 * 1024) 0 1
      (by decide) (by decide) (by decide)
      (Evaluator.mkState [0, 1] 1 (32 * 1024)) rfl (by decide) (by decide)
      [] [([0, 0], [(true, ((1 : Int), (0 : Int)))])]
      [0, 0] [(true, ((0 : Int), (0 : Int)))]
      (by decide) (by decide)
  exact ⟨rfl, by decide, by decide, h2, h3⟩

/-- Counterexample for C10 as stated: in this run the matchup `(0, 1)`'s only
game is a draw, yet the record named `(0, 1)` IS finalized — the wins of the
`(1, 0)`-bound game land in the transposed cell `(0, 1)`. -/
theorem draw_matchup_still_finalized :
    maskSelect (Evaluator.mkState [0, 1] 1 (32 * 1024)).tracker.live
        ((Evaluator.mkState [0, 1] 1 (32 * 1024)).tracker.mask [0, 0])
      = [((0 : Int), (1 : Int))] ∧
    winContrib ((0 : Int), (0 : Int)) = 0 ∧
    ValidRunW (Evaluator.mkState [0, 1] 1 (32 * 1024))
      [([0, 0], [(true, ((0 : Int), (0 : Int)))]),
       ([0, 0], [(true, ((1 : Int), (0 : Int)))])] ∧
    (Evaluator.run (Evaluator.mkState [0, 1] 1 (32 * 1024))
      [([0, 0], [(true, ((0 : Int), (0 : Int)))]),
       ([0, 0], [(true, ((1 : Int), (0 : Int)))])]).1.tracker.finished = true ∧
    RecCount [0, 1] (Evaluator.run (Evaluator.mkState [0, 1] 1 (32 * 1024))
      [([0, 0], [(true, ((0 : Int), (0 : Int)))]),
       ([0, 0], [(true, ((1 : Int), (0 : Int)))])]).2 0 1 = 1 := by
  refine ⟨by decide, by decide, by decide, by decide, by decide⟩

end Boardlaw
